import Mathlib

/-!
# Verification of the a0-launcher version lifecycle orchestrator

Shallow embedding, in Lean 4, of the pure decision logic of the a0-launcher
repository, together with proofs of the specification's testable properties.

Strings from the JavaScript source are modelled as `List Char`; JavaScript
numbers are modelled as `Option ℚ` (`none` standing for `NaN` and the
infinities, i.e. the values rejected by `Number.isFinite`).  Each definition
is translated from a named function of the source tree; the file is organised
by source module:

* `shell/service_versions/index.js` — tag validation, the operation state
  machine, retention enforcement, the installability-cache TTL logic and the
  version transition protocol;
* `shell/service_versions/retention.js` — retained-container naming;
* `shell/service_versions/state_store.js` — retention-policy and
  port-preference persistence;
* `shell/docker/impl/DockerHubRegistry.mjs` — tag-list pagination;
* `shell/docker_adapter/impl/DockerodeDocker.mjs` — the pull progress
  aggregator.
-/

namespace A0

/-! ## JavaScript string and number primitives -/

/-- JavaScript `String.prototype.trim` on an ASCII string (`List Char`). -/
def jsTrim (s : List Char) : List Char :=
  ((s.dropWhile Char.isWhitespace).reverse.dropWhile Char.isWhitespace).reverse

/-- A JavaScript number as seen through `Number.isFinite`: `none` models `NaN`
and the infinities, `some q` a finite numeric value. -/
abbrev JsNum := Option ℚ

/-- `Math.floor` on a finite JavaScript number. -/
def jsFloor (q : ℚ) : ℤ := ⌊q⌋

/-! ## Error codes (`err.code` values assigned across the source) -/

inductive ErrCode where
  | INVALID_TAG
  | TAG_NOT_ALLOWED
  | OP_IN_PROGRESS
  | INVALID_RETENTION_POLICY
  | INVALID_PORT_PREFERENCES
  | INVALID_CONTAINER_ID
  | INVALID_DATA_LOSS_ACK
  | NOT_YET_AVAILABLE
  | NOT_INSTALLED
  | INSTANCE_NOT_FOUND
  | CANNOT_DELETE_ACTIVE
  | NO_ACTIVE_INSTANCE
  | NO_RELEASES
  | CREATE_FAILED
  | UI_NOT_READY
  | REGISTRY_RATE_LIMIT
  | REGISTRY_PAGINATION_ERROR
  | REGISTRY_ERROR
  | DOCKER_ERROR
  | CONFLICT
  deriving DecidableEq, Repr

instance instDecEqExcept {ε α : Type} [DecidableEq ε] [DecidableEq α] :
    DecidableEq (Except ε α)
  | .ok a, .ok b => if h : a = b then .isTrue (by rw [h]) else .isFalse (by simp [h])
  | .ok _, .error _ => .isFalse (by simp)
  | .error _, .ok _ => .isFalse (by simp)
  | .error e, .error f => if h : e = f then .isTrue (by rw [h]) else .isFalse (by simp [h])

/-! ## Tag validation (`shell/service_versions/index.js`, lines 59–108)

`isSafeTag` checks the safe-character pattern `[A-Za-z0-9][A-Za-z0-9_.-]*`
(plus emptiness, length and separator guards); `isSemverReleaseTag` strips a
leading `v` and defers to npm `semver.valid`; `assertTagAllowedForInstall`
combines them with the preview tag and the canonical local-build tags. -/

/-- Membership in the character class `[A-Za-z0-9_.-]`. -/
def isSafeTagChar (c : Char) : Bool :=
  c.isAlphanum || c = '_' || c = '.' || c = '-'

/-- The anchored pattern `[A-Za-z0-9][A-Za-z0-9_.-]*`. -/
def matchesSafeTagPattern : List Char → Bool
  | [] => false
  | c :: rest => c.isAlphanum && rest.all isSafeTagChar

/-- `isSafeTag` (index.js lines 59–66). -/
def isSafeTag (tag : List Char) : Bool :=
  let t := jsTrim tag
  if t.isEmpty then false
  else if 128 < t.length then false
  else if t.contains ':' || t.contains '/' || t.any Char.isWhitespace then false
  else matchesSafeTagPattern t

/-- Membership in the character class `[0-9a-zA-Z-]` of semver identifiers. -/
def isSemverIdChar (c : Char) : Bool :=
  c.isAlphanum || c = '-'

/-- npm semver numeric identifier: `0` or `[1-9][0-9]*`. -/
def isNumericIdent (l : List Char) : Bool :=
  match l with
  | [] => false
  | c :: rest => (c :: rest).all Char.isDigit && (c ≠ '0' || rest.isEmpty)

/-- npm semver prerelease identifier: a numeric identifier or
`[0-9]*[a-zA-Z-][0-9a-zA-Z-]*`. -/
def isPrereleaseIdent (l : List Char) : Bool :=
  if l.isEmpty then false
  else if l.all Char.isDigit then isNumericIdent l
  else l.all isSemverIdChar

/-- npm semver build identifier: `[0-9a-zA-Z-]+`. -/
def isBuildIdent (l : List Char) : Bool :=
  !l.isEmpty && l.all isSemverIdChar

/-- Split a character list at every occurrence of a single character
(the behaviour of splitting on `.` inside semver suffixes). -/
def splitOnChar (sep : Char) : List Char → List (List Char)
  | [] => [[]]
  | c :: rest =>
    let r := splitOnChar sep rest
    if c = sep then [] :: r
    else match r with
      | [] => [[c]]
      | h :: t => (c :: h) :: t

/-- Greedily take leading decimal digits (how the semver regex consumes a
version numeral: the following character is never a digit). -/
def takeDigits (l : List Char) : List Char × List Char :=
  (l.takeWhile Char.isDigit, l.dropWhile Char.isDigit)

/-- Decimal value of a digit string. -/
def digitsToNat (l : List Char) : ℕ :=
  l.foldl (fun a c => a * 10 + (c.toNat - 48)) 0

/-- `Number.MAX_SAFE_INTEGER`; the semver parser rejects larger numerals. -/
def maxSafeInteger : ℕ := 2 ^ 53 - 1

/-- A semver version numeral: numeric identifier within
`Number.MAX_SAFE_INTEGER`. -/
def validVersionNumeral (l : List Char) : Bool :=
  isNumericIdent l && digitsToNat l ≤ maxSafeInteger

/-- The optional `-prerelease` / `+build` tail of a semver string. -/
def validSemverTail (l : List Char) : Bool :=
  match l with
  | [] => true
  | '-' :: rest =>
    -- prerelease identifiers contain no '+', so the first '+' starts the build
    let pre := rest.takeWhile (fun c => c ≠ '+')
    let rest2 := rest.dropWhile (fun c => c ≠ '+')
    ((splitOnChar '.' pre).all isPrereleaseIdent) &&
      (match rest2 with
        | [] => true
        | _ :: build => (splitOnChar '.' build).all isBuildIdent)
  | '+' :: build => (splitOnChar '.' build).all isBuildIdent
  | _ => false

/-- The body of the npm semver `FULL` regular expression:
`v? numeral . numeral . numeral (-prerelease)? (+build)?`. -/
def matchesSemverFull (l : List Char) : Bool :=
  let l1 := match l with
    | 'v' :: rest => rest
    | _ => l
  let (d1, r1) := takeDigits l1
  match r1 with
  | '.' :: r1b =>
    let (d2, r2) := takeDigits r1b
    (match r2 with
      | '.' :: r2b =>
        let (d3, r3) := takeDigits r2b
        validVersionNumeral d1 && validVersionNumeral d2 && validVersionNumeral d3 &&
          validSemverTail r3
      | _ => false)
  | _ => false

/-- npm `semver.valid` (length guard, trim, `FULL` regex match). -/
def semverValid (s : List Char) : Bool :=
  if 256 < s.length then false
  else matchesSemverFull (jsTrim s)

/-- `isSemverReleaseTag` (index.js lines 68–73). -/
def isSemverReleaseTag (tag : List Char) : Bool :=
  let t := jsTrim tag
  match t with
  | 'v' :: rest => semverValid rest
  | _ => false

/-- `isTestingTag` (index.js lines 75–77). -/
def isTestingTag (tag : List Char) : Bool :=
  jsTrim tag = "testing".toList

/-- `CANONICAL_LOCAL_TAGS` (index.js line 19). -/
def CANONICAL_LOCAL_TAGS : List (List Char) :=
  ["local".toList, "development".toList, "main".toList]

/-- `isCanonicalLocalTag` (index.js lines 79–82). -/
def isCanonicalLocalTag (tag : List Char) : Bool :=
  CANONICAL_LOCAL_TAGS.contains (jsTrim tag)

/-- `assertTagAllowedForInstall` (index.js lines 84–97). -/
def assertTagAllowedForInstall (tag : List Char) : Except ErrCode (List Char) :=
  let t := jsTrim tag
  if !isSafeTag t then .error .INVALID_TAG
  else if !(isTestingTag t || isSemverReleaseTag t || isCanonicalLocalTag t) then
    .error .TAG_NOT_ALLOWED
  else .ok t

/-- `assertTagAllowedForActivate` (index.js lines 99–108). -/
def assertTagAllowedForActivate (tag : List Char) : Except ErrCode (List Char) :=
  let t := jsTrim tag
  if !isSafeTag t then .error .INVALID_TAG
  else .ok t

/-! ## Retained-container naming (`shell/service_versions/retention.js`)

`makeRetainedContainerName` embeds a repository slug, a compact UTC
timestamp and a tag slug into a container name separated by `__`;
`parseRetainedContainerName` recovers the tag and the retention timestamp.
The JavaScript `Date` produced from the caller's ISO string is modelled by
its UTC components (`DateT`); `isoToCompactTimestamp` formats exactly those
components, as the source does via the `getUTC*` accessors. -/

/-- Membership in the Docker-name character class `[A-Za-z0-9_.-]`
(retention.js line 11). -/
def isNamePartChar (c : Char) : Bool :=
  c.isAlphanum || c = '_' || c = '.' || c = '-'

/-- The printable-ASCII range `\x20`–`\x7E` kept by retention.js line 10. -/
def isPrintableAscii (c : Char) : Bool :=
  0x20 ≤ c.toNat && c.toNat ≤ 0x7E

/-- Scanner for `replace(/[^A-Za-z0-9_.-]+/g, '-')`: every maximal run of
characters outside the class becomes a single dash (the flag records
whether the scanner is inside such a run). -/
def collapseBadRunsAux (inBad : Bool) : List Char → List Char
  | [] => []
  | c :: rest =>
    if isNamePartChar c then c :: collapseBadRunsAux false rest
    else if inBad then collapseBadRunsAux true rest
    else '-' :: collapseBadRunsAux true rest

/-- `replace(/[^A-Za-z0-9_.-]+/g, '-')`. -/
def collapseBadRuns (l : List Char) : List Char :=
  collapseBadRunsAux false l

/-- Strip leading dashes, then trailing dashes (the two anchored dash
replacements of retention.js lines 12–13). -/
def stripDashEnds (l : List Char) : List Char :=
  (((l.dropWhile (fun c => c = '-')).reverse.dropWhile (fun c => c = '-'))).reverse

/-- `sanitizeNamePart` (retention.js lines 5–15). -/
def sanitizeNamePart (value : List Char) : List Char :=
  let v := jsTrim value
  if v.isEmpty then "unknown".toList
  else
    let cleaned := stripDashEnds (collapseBadRuns (v.filter isPrintableAscii))
    if cleaned.isEmpty then "unknown".toList else cleaned

/-- `repoSlug` (retention.js lines 17–19): replace `/` by `-`, then sanitize. -/
def repoSlug (imageRepo : List Char) : List Char :=
  sanitizeNamePart (imageRepo.map (fun c => if c = '/' then '-' else c))

/-- `getActiveContainerName` (retention.js lines 21–23). -/
def getActiveContainerName (imageRepo : List Char) : List Char :=
  "a0-svc-active__".toList ++ repoSlug imageRepo

/-- UTC components of the JavaScript `Date` built from the caller's ISO
string (`month` is already 1-based, as the source computes
`getUTCMonth() + 1`). -/
structure DateT where
  year : ℕ
  month : ℕ
  day : ℕ
  hour : ℕ
  minute : ℕ
  second : ℕ
  deriving DecidableEq, Repr

/-- The decimal digit character for `n < 10`. -/
def digitChar (n : ℕ) : Char := Char.ofNat (48 + n)

/-- Fuel-driven digit expansion (structurally recursive so that concrete
instances compute inside `decide`). -/
def natDigitsAux : ℕ → ℕ → List Char
  | 0, _ => []
  | fuel + 1, n =>
    if n < 10 then [digitChar n]
    else natDigitsAux fuel (n / 10) ++ [digitChar (n % 10)]

/-- Decimal digits of a natural number (the result of JavaScript
`String(n)` for a nonnegative integer). -/
def natDigits (n : ℕ) : List Char :=
  natDigitsAux (n + 1) n

/-- `String(n).padStart(2, '0')`. -/
def padTwo (n : ℕ) : List Char :=
  if n < 10 then '0' :: natDigits n else natDigits n

/-- `isoToCompactTimestamp` (retention.js lines 29–39): format the UTC
components as `YYYYMMDDTHHMMSSZ` (the year unpadded, the rest padded to
two digits). -/
def isoToCompactTimestamp (d : DateT) : List Char :=
  natDigits d.year ++ padTwo d.month ++ padTwo d.day ++
    'T' :: (padTwo d.hour ++ padTwo d.minute ++ (padTwo d.second ++ ['Z']))

/-- The regular expression `^\d{8}T\d{6}Z$` of retention.js line 43. -/
def matchesCompactTs : List Char → Bool
  | [y1, y2, y3, y4, mo1, mo2, d1, d2, 'T', h1, h2, mi1, mi2, s1, s2, 'Z'] =>
    [y1, y2, y3, y4, mo1, mo2, d1, d2, h1, h2, mi1, mi2, s1, s2].all Char.isDigit
  | _ => false

/-- `compactTimestampToIso` (retention.js lines 41–51); the JavaScript
falsy `''` result is modelled as `none`. -/
def compactTimestampToIso (ts : List Char) : Option (List Char) :=
  let t := jsTrim ts
  if matchesCompactTs t then
    some ((t.take 4) ++ '-' :: ((t.drop 4).take 2) ++ '-' :: ((t.drop 6).take 2) ++
      'T' :: ((t.drop 9).take 2) ++ ':' :: ((t.drop 11).take 2) ++
        ':' :: ((t.drop 13).take 2) ++ ['Z'])
  else none

/-- `makeRetainedContainerName` (retention.js lines 53–57). -/
def makeRetainedContainerName (imageRepo tag : List Char) (retainedAt : DateT) :
    List Char :=
  "a0-svc-retained__".toList ++ repoSlug imageRepo ++ '_' :: '_' ::
    isoToCompactTimestamp retainedAt ++ '_' :: '_' :: sanitizeNamePart tag

/-- JavaScript `name.split('__')` (retention.js line 65), specialised to the
separator `__`: scan left to right, break at each non-overlapping
occurrence. -/
def jsSplitUU : List Char → List (List Char)
  | [] => [[]]
  | '_' :: '_' :: rest => [] :: jsSplitUU rest
  | c :: rest =>
    match jsSplitUU rest with
    | [] => [[c]]
    | h :: t => (c :: h) :: t

/-- `parts.slice(3).join('__')` (retention.js line 71). -/
def joinUU (parts : List (List Char)) : List Char :=
  List.intercalate ['_', '_'] parts

/-- A segment scans cleanly past a following `__` separator: it contains no
`__` occurrence and does not end in `_` (otherwise the left-to-right scan of
`split('__')` would break earlier than the separator written after it). -/
def cleanUU : List Char → Bool
  | [] => true
  | ['_'] => false
  | '_' :: '_' :: _ => false
  | _ :: rest => cleanUU rest

/-- The caller's timestamp truncated to whole UTC seconds, rendered as
`YYYY-MM-DDTHH:MM:SSZ` — the value `parseRetainedContainerName` is expected
to recover. -/
def isoUtcSeconds (d : DateT) : List Char :=
  natDigits d.year ++ '-' :: (padTwo d.month ++ '-' :: (padTwo d.day ++
    'T' :: (padTwo d.hour ++ ':' :: (padTwo d.minute ++
      ':' :: (padTwo d.second ++ ['Z'])))))

/-- In-range UTC components (what a JavaScript `Date` built from a valid ISO
timestamp with a four-digit year yields through its `getUTC*` accessors). -/
def validUtcDate (d : DateT) : Prop :=
  1000 ≤ d.year ∧ d.year ≤ 9999 ∧ 1 ≤ d.month ∧ d.month ≤ 12 ∧ 1 ≤ d.day ∧
    d.day ≤ 31 ∧ d.hour ≤ 23 ∧ d.minute ≤ 59 ∧ d.second ≤ 59

instance (d : DateT) : Decidable (validUtcDate d) := by
  unfold validUtcDate; infer_instance

/-- Result of `parseRetainedContainerName`. -/
structure RetainedParsed where
  tag : List Char
  retainedAt : List Char
  deriving DecidableEq, Repr

/-- List-prefix test (JavaScript `String.prototype.startsWith`). -/
def startsWithCL : List Char → List Char → Bool
  | _, [] => true
  | [], _ :: _ => false
  | c :: cs, p :: ps => c = p && startsWithCL cs ps

/-- `parseRetainedContainerName` (retention.js lines 59–75). -/
def parseRetainedContainerName (containerName : List Char) : Option RetainedParsed :=
  let name := jsTrim containerName
  if !startsWithCL name "a0-svc-retained__".toList then none
  else
    let parts := jsSplitUU name
    if parts.length < 4 then none
    else
      let ts := parts.getD 2 []
      match compactTimestampToIso ts with
      | none => none
      | some retainedAt =>
        let tag := joinUU (parts.drop 3)
        if tag.isEmpty then none
        else some ⟨tag, retainedAt⟩

/-! ## Operation state machine (`shell/service_versions/index.js`, lines 394–441)

The module-level singleton `_currentOperation` holds at most one Operation
record; every operation-starting entry point runs its synchronous argument
validation, then `requireNoRunningOperation`, then `beginOperation`.  The
opId (`op_<timestamp>_<random>` in the source) is modelled by a caller-
supplied natural number. -/

inductive OpType where
  | install | update | activate | rollback | start | stop | delete_instance
  deriving DecidableEq, Repr

inductive OpStatus where
  | running | completed | failed | canceled
  deriving DecidableEq, Repr

/-- The `_currentOperation` record (index.js lines 409–421). -/
structure Operation where
  opId : ℕ
  type : OpType
  status : OpStatus
  targetVersionTag : Option (List Char)
  progress : Option ℤ
  downloadProgress : Option ℤ
  extractProgress : Option ℤ
  message : Option (List Char)
  error : Option (List Char)
  deriving DecidableEq, Repr

/-- Whether the singleton slot holds a running operation. -/
def isRunningOp (cur : Option Operation) : Bool :=
  match cur with
  | some op => op.status = .running
  | none => false

/-- `requireNoRunningOperation` (index.js lines 398–404). -/
def requireNoRunningOperation (cur : Option Operation) : Except ErrCode Unit :=
  match cur with
  | some op => if op.status = .running then .error .OP_IN_PROGRESS else .ok ()
  | none => .ok ()

/-- The fresh record built by `beginOperation` (index.js lines 406–424). -/
def freshOperation (opId : ℕ) (ty : OpType) (target : Option (List Char)) :
    Operation :=
  { opId := opId, type := ty, status := .running, targetVersionTag := target,
    progress := none, downloadProgress := none, extractProgress := none,
    message := none, error := none }

/-- `beginOperation` (index.js lines 406–424): fail fast if an operation is
running, otherwise install the fresh running record. -/
def beginOperation (cur : Option Operation) (opId : ℕ) (ty : OpType)
    (target : Option (List Char)) : Except ErrCode Operation :=
  match requireNoRunningOperation cur with
  | .error e => .error e
  | .ok _ => .ok (freshOperation opId ty target)

/-- `finishOperation` (index.js lines 432–441). -/
def finishOperation (cur : Option Operation) (status : OpStatus)
    (errorMessage : Option (List Char)) : Option Operation :=
  match cur with
  | none => none
  | some op => some { op with status := status, error := errorMessage }

/-- Hexadecimal character class of `assertContainerId`. -/
def isHexChar (c : Char) : Bool :=
  c.isDigit || ('a' ≤ c && c ≤ 'f') || ('A' ≤ c && c ≤ 'F')

/-- `assertContainerId` (index.js lines 836–849). -/
def assertContainerId (value : List Char) : Except ErrCode (List Char) :=
  let v := jsTrim value
  if v.isEmpty || 128 < v.length then .error .INVALID_CONTAINER_ID
  else if !v.all isHexChar then .error .INVALID_CONTAINER_ID
  else .ok v

/-- `assertDataLossAck` (index.js lines 851–859). -/
def assertDataLossAck (value : List Char) : Except ErrCode (List Char) :=
  let v := jsTrim value
  if v = "has_backup".toList || v = "proceed_without_backup".toList then .ok v
  else .error .INVALID_DATA_LOSS_ACK

/-- An operation-starting entry point together with its arguments. -/
inductive Call where
  | install (tag : List Char)
  | startActive
  | stopActive
  | deleteInstance (containerId : List Char)
  | update (ack : List Char)
  | activateRetained (containerId ack : List Char)
  | activate (tag ack : List Char)
  deriving DecidableEq, Repr

/-- Whether an `Except` result is a success. -/
def exceptOk {ε α : Type} (e : Except ε α) : Bool :=
  match e with
  | .ok _ => true
  | .error _ => false

/-- The synchronous prefix of each operation-starting entry point: argument
validation in source order, then `requireNoRunningOperation` via
`beginOperation`.  Returns the singleton slot after the call together with
the call's synchronous outcome; on any error the slot is returned as it
was. -/
def dispatchCall (cur : Option Operation) (opId : ℕ) :
    Call → Option Operation × Except ErrCode ℕ
  | .install tag =>
    match assertTagAllowedForInstall tag with
    | .error e => (cur, .error e)
    | .ok t =>
      match beginOperation cur opId .install (some t) with
      | .error e => (cur, .error e)
      | .ok op => (some op, .ok opId)
  | .startActive =>
    match beginOperation cur opId .start none with
    | .error e => (cur, .error e)
    | .ok op => (some op, .ok opId)
  | .stopActive =>
    match beginOperation cur opId .stop none with
    | .error e => (cur, .error e)
    | .ok op => (some op, .ok opId)
  | .deleteInstance containerId =>
    match assertContainerId containerId with
    | .error e => (cur, .error e)
    | .ok _ =>
      match beginOperation cur opId .delete_instance none with
      | .error e => (cur, .error e)
      | .ok op => (some op, .ok opId)
  | .update ack =>
    match assertDataLossAck ack with
    | .error e => (cur, .error e)
    | .ok _ =>
      match beginOperation cur opId .update none with
      | .error e => (cur, .error e)
      | .ok op => (some op, .ok opId)
  | .activateRetained containerId ack =>
    match assertDataLossAck ack with
    | .error e => (cur, .error e)
    | .ok _ =>
      match assertContainerId containerId with
      | .error e => (cur, .error e)
      | .ok _ =>
        match beginOperation cur opId .rollback none with
        | .error e => (cur, .error e)
        | .ok op => (some op, .ok opId)
  | .activate tag ack =>
    match assertTagAllowedForActivate tag with
    | .error e => (cur, .error e)
    | .ok t =>
      match assertDataLossAck ack with
      | .error e => (cur, .error e)
      | .ok _ =>
        match beginOperation cur opId .activate (some t) with
        | .error e => (cur, .error e)
        | .ok op => (some op, .ok opId)

/-- A call whose synchronous argument validation succeeds. -/
def callValid : Call → Bool
  | .install tag => exceptOk (assertTagAllowedForInstall tag)
  | .startActive => true
  | .stopActive => true
  | .deleteInstance containerId => exceptOk (assertContainerId containerId)
  | .update ack => exceptOk (assertDataLossAck ack)
  | .activateRetained containerId ack =>
    exceptOk (assertDataLossAck ack) && exceptOk (assertContainerId containerId)
  | .activate tag ack =>
    exceptOk (assertTagAllowedForActivate tag) && exceptOk (assertDataLossAck ack)

/-- Run a sequence of operation-starting calls, threading the singleton slot. -/
def applyCalls (cur : Option Operation) (nextId : ℕ) : List Call → Option Operation
  | [] => cur
  | c :: rest => applyCalls (dispatchCall cur nextId c).1 (nextId + 1) rest

/-- Number of running operations visible in the singleton slot. -/
def runningOpCount (cur : Option Operation) : ℕ :=
  if isRunningOp cur then 1 else 0

/-! ## Persistent state store (`shell/service_versions/state_store.js`) -/

/-- Persisted retention policy. -/
structure RetentionPolicy where
  keepCount : ℤ
  deriving DecidableEq, Repr

/-- Persisted port preferences. -/
structure PortPrefs where
  ui : ℤ
  ssh : ℤ
  deriving DecidableEq, Repr

/-- The slice of `state.json` the claims touch. -/
structure StoreState where
  retentionPolicy : Option RetentionPolicy
  portPreferences : Option PortPrefs
  deriving DecidableEq, Repr

/-- The store before anything was written. -/
def emptyStore : StoreState := { retentionPolicy := none, portPreferences := none }

/-- The clamp `Math.max(0, Math.min(20, Math.floor(keepCount)))` with the
non-finite fallback `1` (state_store.js lines 52–55). -/
def clampKeepCount (n : JsNum) : ℤ :=
  match n with
  | none => max 0 (min 20 1)
  | some q => max 0 (min 20 ⌊q⌋)

/-- `writeRetentionPolicy` (state_store.js lines 51–59). -/
def writeRetentionPolicy (st : StoreState) (input : JsNum) : StoreState × ℤ :=
  let kc := clampKeepCount input
  ({ st with retentionPolicy := some ⟨kc⟩ }, kc)

/-- `normalizePort` (state_store.js lines 78–84). -/
def normalizePort (v : JsNum) (fallback : ℤ) : ℤ :=
  match v with
  | none => fallback
  | some q =>
    let p := ⌊q⌋
    if p ≤ 0 ∨ 65535 < p then fallback else p

/-- `writePortPreferences` (state_store.js lines 107–123): normalize both
ports (falling back to the defaults 8880/55022), reject equal ports before
any write, else persist. -/
def writePortPreferences (st : StoreState) (ui ssh : JsNum) :
    StoreState × Except ErrCode PortPrefs :=
  let prefs : PortPrefs := ⟨normalizePort ui 8880, normalizePort ssh 55022⟩
  if prefs.ui = prefs.ssh then (st, .error .INVALID_PORT_PREFERENCES)
  else ({ st with portPreferences := some prefs }, .ok prefs)

/-- `assertKeepCount` (index.js lines 825–834). -/
def assertKeepCount (n : JsNum) : Except ErrCode ℤ :=
  match n with
  | none => .error .INVALID_RETENTION_POLICY
  | some q => .ok (max 0 (min 20 ⌊q⌋))

/-- `setRetentionPolicy` (index.js lines 867–873): single-flight check,
validation, then persistence; the store is returned unchanged on error. -/
def setRetentionPolicy (cur : Option Operation) (st : StoreState) (input : JsNum) :
    StoreState × Except ErrCode ℤ :=
  match requireNoRunningOperation cur with
  | .error e => (st, .error e)
  | .ok _ =>
    match assertKeepCount input with
    | .error e => (st, .error e)
    | .ok kc =>
      let r := writeRetentionPolicy st (some (kc : ℚ))
      (r.1, .ok r.2)

/-- `setPortPreferences` (index.js lines 875–880). -/
def setPortPreferences (cur : Option Operation) (st : StoreState) (ui ssh : JsNum) :
    StoreState × Except ErrCode PortPrefs :=
  match requireNoRunningOperation cur with
  | .error e => (st, .error e)
  | .ok _ => writePortPreferences st ui ssh

/-! ## Installability cache TTL (`shell/service_versions/index.js`, lines 563–613)

The probe loop of `buildDerivedState` visits each candidate tag: a cached
verdict that is still fresh per the TTL rules is skipped, otherwise the
registry digest probe runs and a new verdict is written back.  Timestamps
are modelled in epoch milliseconds (`none` standing for a missing or
unparseable ISO string, i.e. a non-finite `isoToMs` result); registry
failures are modelled by an `Except` probe outcome, and the catch block
leaves the entry untouched. -/

inductive InstStatus where
  | unknown | installable | not_yet_available
  deriving DecidableEq, Repr

/-- A per-tag installability cache entry. -/
structure CacheEntry where
  status : InstStatus
  checkedAt : Option ℤ
  recheckAfter : Option ℤ
  digest : Option (List Char)
  deriving DecidableEq, Repr

/-- Result of a successful `getRemoteDigest` probe. -/
structure DigestInfo where
  tagExists : Bool
  digest : Option (List Char)
  deriving DecidableEq, Repr

/-- 24 hours in milliseconds (`24 * 60 * 60 * 1000`). -/
def H24_MS : ℤ := 24 * 60 * 60 * 1000

/-- 15 minutes in milliseconds (`15 * 60 * 1000`). -/
def M15_MS : ℤ := 15 * 60 * 1000

/-- The freshness decision of the probe loop (index.js lines 576–586): only
evaluated on a non-forced refresh. -/
def cacheEntryFresh (force : Bool) (nowMs : ℤ) (existing : Option CacheEntry) :
    Bool :=
  if force then false
  else
    match existing with
    | none => false
    | some e =>
      (decide (e.status = .installable) &&
        (match e.checkedAt with
          | some t => decide (nowMs - t < H24_MS)
          | none => false)) ||
      (decide (e.status = .not_yet_available) &&
        (match e.recheckAfter with
          | some r => decide (nowMs < r)
          | none => false))

/-- One iteration of the probe loop for a single tag (index.js lines
570–612): returns the entry after the iteration and whether the registry
was probed.  A registry failure (`.error`) is swallowed and leaves the
entry unchanged. -/
def refreshCacheEntryStep (force : Bool) (nowMs : ℤ) (existing : Option CacheEntry)
    (probe : Except Unit DigestInfo) : Option CacheEntry × Bool :=
  if cacheEntryFresh force nowMs existing then (existing, false)
  else
    match probe with
    | .error _ => (existing, true)
    | .ok info =>
      if info.tagExists then
        (some { status := .installable, checkedAt := some nowMs,
                recheckAfter := none, digest := info.digest }, true)
      else
        (some { status := .not_yet_available, checkedAt := some nowMs,
                recheckAfter := some (nowMs + M15_MS), digest := none }, true)

/-! ## Registry tag-list pagination (`shell/docker/impl/DockerHubRegistry.mjs`,
lines 230–342)

`listTags` follows `Link: rel="next"` headers in a `while (true)` loop,
aborting with `REGISTRY_PAGINATION_ERROR` when more than 2000 pages have
been followed or when a next link equals the URL just fetched.  The fetch
(including the transparent one-shot token refresh on a 401, which re-issues
the same URL) is abstracted into an oracle from URL to outcome. -/

/-- One page of the `tags/list` endpoint. -/
structure TagPage where
  tags : List (List Char)
  nextLink : Option (List Char)
  deriving DecidableEq, Repr

/-- Outcome of fetching one URL (after the 401 retry): a page, a 429, or
another failure. -/
inductive PageOutcome where
  | page (p : TagPage)
  | rateLimited
  | failed
  deriving DecidableEq, Repr

/-- Strict lexicographic order on UTF-16-ish character lists (the default
JavaScript `Array.prototype.sort` comparison for strings). -/
def lexLtCL : List Char → List Char → Bool
  | [], [] => false
  | [], _ :: _ => true
  | _ :: _, [] => false
  | a :: as, b :: bs => if a < b then true else if b < a then false else lexLtCL as bs

/-- Total order used to sort tags ascending. -/
def lexLeCL (a b : List Char) : Bool := !lexLtCL b a

/-- Insert into a list sorted by `le`. -/
def insertByLe {α : Type} (le : α → α → Bool) (x : α) : List α → List α
  | [] => [x]
  | y :: rest => if le x y then x :: y :: rest else y :: insertByLe le x rest

/-- Insertion sort by `le` (models a JavaScript comparator sort: any
sorting algorithm agreeing with the comparator on totally preordered
inputs). -/
def sortByLe {α : Type} (le : α → α → Bool) : List α → List α
  | [] => []
  | x :: rest => insertByLe le x (sortByLe le rest)

/-- `new Set(tags)`: de-duplicate keeping first occurrences. -/
def jsSetDedupAux (seen : List (List Char)) : List (List Char) → List (List Char)
  | [] => []
  | x :: rest =>
    if seen.contains x then jsSetDedupAux seen rest
    else x :: jsSetDedupAux (x :: seen) rest

/-- `Array.from(new Set(tags)).sort()` (DockerHubRegistry.mjs line 340). -/
def dedupSortTags (tags : List (List Char)) : List (List Char) :=
  sortByLe lexLeCL (jsSetDedupAux [] tags)

/-- The `while (true)` pagination loop of `listTags` (DockerHubRegistry.mjs
lines 240–337), with the accumulated tags threaded through.  Total by
well-founded recursion on the page budget — exactly the property the bound
check provides. -/
def listTagsGo (fetch : List Char → PageOutcome) (url : List Char) (page : ℕ)
    (acc : List (List Char)) : Except ErrCode (List (List Char)) :=
  if 2000 < page then .error .REGISTRY_PAGINATION_ERROR
  else
    match fetch url with
    | .rateLimited => .error .REGISTRY_RATE_LIMIT
    | .failed => .error .REGISTRY_ERROR
    | .page p =>
      let acc2 := acc ++ p.tags
      match p.nextLink with
      | none => .ok (dedupSortTags acc2)
      | some l =>
        if l = url then .error .REGISTRY_PAGINATION_ERROR
        else listTagsGo fetch l (page + 1) acc2
termination_by 2001 - page
decreasing_by omega

/-- `listTags` (the loop started from the first `tags/list` URL). -/
def listTags (fetch : List Char → PageOutcome) (firstUrl : List Char) :
    Except ErrCode (List (List Char)) :=
  listTagsGo fetch firstUrl 0 []

/-! ## Retention enforcement (`shell/service_versions/index.js`, lines 861–865
and 939–967)

`enforceRetention` lists the repository's containers, keeps those whose
name parses as a retained name, sorts them descending by retention
timestamp (millisecond comparison, with a descending string comparison as
fallback for unparseable timestamps), keeps the first
`effectiveRetentionCount` and best-effort deletes the rest.  `Date.parse`
on the canonical `YYYY-MM-DDTHH:MM:SSZ` strings produced by
`parseRetainedContainerName` is modelled by field-range validation plus a
strictly monotone encoding of the UTC components — only the induced order
is ever used. -/

/-- A container as reported by `docker.listContainers`. -/
structure ContainerInfo where
  containerId : List Char
  containerName : List Char
  tag : List Char
  state : List Char
  deriving DecidableEq, Repr

/-- Numeric value of a decimal digit character. -/
def digitVal (c : Char) : ℕ := c.toNat - 48

/-- Parse a canonical `YYYY-MM-DDTHH:MM:SSZ` string into UTC components,
validating field ranges the way `Date.parse` does (out-of-range fields give
`NaN`). -/
def parseIsoCanonical : List Char → Option DateT
  | [y1, y2, y3, y4, '-', m1, m2, '-', d1, d2, 'T', h1, h2, ':', i1, i2, ':',
      s1, s2, 'Z'] =>
    if [y1, y2, y3, y4, m1, m2, d1, d2, h1, h2, i1, i2, s1, s2].all Char.isDigit then
      let d : DateT :=
        { year := ((digitVal y1 * 10 + digitVal y2) * 10 + digitVal y3) * 10 + digitVal y4,
          month := digitVal m1 * 10 + digitVal m2,
          day := digitVal d1 * 10 + digitVal d2,
          hour := digitVal h1 * 10 + digitVal h2,
          minute := digitVal i1 * 10 + digitVal i2,
          second := digitVal s1 * 10 + digitVal s2 }
      if 1 ≤ d.month ∧ d.month ≤ 12 ∧ 1 ≤ d.day ∧ d.day ≤ 31 ∧ d.hour ≤ 23 ∧
          d.minute ≤ 59 ∧ d.second ≤ 59 then some d
      else none
    else none
  | _ => none

/-- Strictly monotone (in the lexicographic field order, hence in real UTC
time) encoding of UTC components; stands in for the epoch milliseconds of
`Date.parse`. -/
def encodeUtcMs (d : DateT) : ℤ :=
  ((((d.year * 100 + d.month) * 100 + d.day) * 100 + d.hour) * 100 + d.minute) * 100
    + d.second

/-- `isoToMs` (index.js lines 118–121) on the canonical strings reachable
here; `none` models `NaN`. -/
def isoToMs (l : List Char) : Option ℤ :=
  (parseIsoCanonical l).map encodeUtcMs

/-- A retained entry of `enforceRetention`: container id and retention
timestamp (index.js lines 943–949). -/
abbrev RetainedEntry := List Char × List Char

/-- `a` sorts no later than `b` under the comparator of index.js lines
951–956 (descending by milliseconds, descending string comparison when a
timestamp fails to parse). -/
def retainedCmpLe (a b : RetainedEntry) : Bool :=
  match isoToMs a.2, isoToMs b.2 with
  | some am, some bm => decide (bm ≤ am)
  | _, _ => !lexLtCL a.2 b.2

/-- The retained entries among a container listing (index.js lines 943–949). -/
def retainedOf (containers : List ContainerInfo) : List RetainedEntry :=
  containers.filterMap (fun c =>
    (parseRetainedContainerName c.containerName).map
      (fun p => (c.containerId, p.retainedAt)))

/-- The retained entries sorted descending by retention timestamp. -/
def sortedRetained (containers : List ContainerInfo) : List RetainedEntry :=
  sortByLe retainedCmpLe (retainedOf containers)

/-- `effectiveRetentionCount` (index.js lines 861–865). -/
def effectiveRetentionCount (policy : Option RetentionPolicy) : ℤ :=
  let keepCount := match policy with | some p => p.keepCount | none => 1
  max 1 (min 20 keepCount)

/-- The ids actually deleted by `enforceRetention` (index.js lines 958–966):
everything past the first `keep` sorted entries, skipping empty ids, each
deletion wrapped in a swallow-all catch — the function itself never fails,
whatever the deletion oracle does. -/
def enforceRetentionDeleted (containers : List ContainerInfo)
    (policy : Option RetentionPolicy)
    (deleteRes : List Char → Except ErrCode Unit) : List (List Char) :=
  let keep := (effectiveRetentionCount policy).toNat
  ((sortedRetained containers).drop keep).filterMap (fun r =>
    if r.1 = [] then none
    else
      match deleteRes r.1 with
      | .ok _ => some r.1
      | .error _ => none)

/-- The containers surviving retention enforcement. -/
def remainingContainers (containers : List ContainerInfo)
    (policy : Option RetentionPolicy)
    (deleteRes : List Char → Except ErrCode Unit) : List ContainerInfo :=
  containers.filter
    (fun c => !(enforceRetentionDeleted containers policy deleteRes).contains
      c.containerId)

/-! ## Pull progress aggregator
(`shell/docker_adapter/impl/DockerodeDocker.mjs`, lines 212–522)

`pullImage` folds the per-layer progress event stream into two aggregate
percentages.  Byte counts are integers (the `Number.isFinite` guards of the
source are modelled by the events carrying `Option ℤ`); the per-event
`Date.now()` is carried on the event.  The emitted pair is the
`(downloadProgress, extractProgress)` slice of the `onProgress` payload. -/

/-- Per-layer bookkeeping (DockerodeDocker.mjs lines 344–353). -/
structure LayerSt where
  dlCurrent : ℤ
  dlTotal : ℤ
  dlComplete : Bool
  xCurrent : ℤ
  xTotal : ℤ
  xComplete : Bool
  alreadyExists : Bool
  deriving DecidableEq, Repr

/-- The mutable pull state (DockerodeDocker.mjs lines 219–235 plus the
captured manifest prefetch). -/
structure PullState where
  layers : List (List Char × LayerSt)
  lastNewLayerAtMs : ℤ
  dlDenomFrozen : ℤ
  xDenomFrozen : ℤ
  lastDlPercent : ℤ
  lastXPercent : ℤ
  prefetched : Bool
  prefetchedSizes : List (List Char × ℤ)
  deriving DecidableEq, Repr

/-- A raw `followProgress` event (status string, layer id, byte pair) plus
its arrival time. -/
structure PullEvent where
  status : Option (List Char)
  rawId : Option (List Char)
  current : Option ℤ
  total : Option ℤ
  nowMs : ℤ
  deriving DecidableEq, Repr

/-- `String.prototype.toLowerCase` on ASCII. -/
def toLowerCL (l : List Char) : List Char := l.map Char.toLower

/-- `String.prototype.includes`. -/
def includesCL : List Char → List Char → Bool
  | l, pat =>
    if startsWithCL l pat then true
    else
      match l with
      | [] => false
      | _ :: rest => includesCL rest pat

/-- The hex-like layer-id filter `^[a-f0-9]{12,}$` (case-insensitive,
DockerodeDocker.mjs line 314). -/
def isHexLayerId (raw : List Char) : Bool :=
  12 ≤ raw.length && raw.all isHexChar

/-- The normalised layer id: hex-like raw ids truncated to 12 characters. -/
def layerIdOf (rawId : Option (List Char)) : Option (List Char) :=
  match rawId with
  | none => none
  | some raw => if isHexLayerId raw then some (raw.take 12) else none

/-- The status predicates of DockerodeDocker.mjs lines 332–338. -/
structure StatusFlags where
  isDownloading : Bool
  isExtracting : Bool
  isDownloadComplete : Bool
  isPullComplete : Bool
  isAlreadyExists : Bool
  deriving DecidableEq, Repr

/-- Compute the status predicates from the lowercased status. -/
def statusFlagsOf (status : Option (List Char)) : StatusFlags :=
  let sn := toLowerCL (status.getD [])
  { isDownloading := sn = "downloading".toList || includesCL sn "downloading".toList,
    isExtracting := sn = "extracting".toList || includesCL sn "extracting".toList,
    isDownloadComplete := includesCL sn "download complete".toList,
    isPullComplete := includesCL sn "pull complete".toList,
    isAlreadyExists := includesCL sn "already exists".toList }

/-- The sequential per-layer field updates of DockerodeDocker.mjs lines
358–392, applied to the matched layer. -/
def updateLayer (f : StatusFlags) (current total : Option ℤ) (st0 : LayerSt) :
    LayerSt :=
  let st1 :=
    if f.isAlreadyExists then
      { st0 with
        alreadyExists := true
        dlComplete := true
        xComplete := true
        dlCurrent := (if 0 < st0.dlTotal then st0.dlTotal else st0.dlCurrent)
        xCurrent := (if 0 < st0.xTotal then st0.xTotal else st0.xCurrent) }
    else st0
  let st2 :=
    if f.isDownloading then
      let dlTotal2 : ℤ := match total with
        | some t => if 0 < t then max st1.dlTotal t else st1.dlTotal
        | none => st1.dlTotal
      let dlCur2 : ℤ := match current with
        | some c => max st1.dlCurrent c
        | none => st1.dlCurrent
      let dlCur3 := if 0 < dlTotal2 then max 0 (min dlCur2 dlTotal2) else dlCur2
      let xTotal2 := if st1.xTotal = 0 ∧ 0 < dlTotal2 then dlTotal2 else st1.xTotal
      { st1 with dlTotal := dlTotal2, dlCurrent := dlCur3, xTotal := xTotal2 }
    else st1
  let st3 :=
    if f.isDownloadComplete then
      { st2 with
        dlComplete := true
        dlCurrent := (if 0 < st2.dlTotal then st2.dlTotal else st2.dlCurrent) }
    else st2
  let st4 :=
    if f.isExtracting then
      let xTotal2 : ℤ := match total with
        | some t => if 0 < t then max st3.xTotal t else st3.xTotal
        | none => st3.xTotal
      let xCur2 : ℤ := match current with
        | some c => max st3.xCurrent c
        | none => st3.xCurrent
      let xCur3 := if 0 < xTotal2 then max 0 (min xCur2 xTotal2) else xCur2
      { st3 with xTotal := xTotal2, xCurrent := xCur3 }
    else st3
  if f.isPullComplete then
    { st4 with
      dlComplete := true
      xComplete := true
      dlCurrent := (if 0 < st4.dlTotal then st4.dlTotal else st4.dlCurrent)
      xCurrent := (if 0 < st4.xTotal then st4.xTotal else st4.xCurrent) }
  else st4

/-- Whether a layer counts as done for a kind (`dl` when the flag is true). -/
def layerDone (dl : Bool) (st : LayerSt) : Bool :=
  if dl then st.dlComplete || st.alreadyExists else st.xComplete || st.alreadyExists

/-- The `(doneBytes, totalBytes)` accumulation of `computeTotals`
(DockerodeDocker.mjs lines 396–421): a done layer of unknown size counts as
one unit, an unknown-size unfinished layer is skipped. -/
def totalsFold (dl : Bool) (layers : List (List Char × LayerSt)) : ℤ × ℤ :=
  layers.foldl
    (fun acc p =>
      let st := p.2
      let isDone := layerDone dl st
      let tot := if dl then st.dlTotal else st.xTotal
      let cur := if dl then st.dlCurrent else st.xCurrent
      if tot ≤ 0 then
        if isDone then (acc.1 + 1, acc.2 + 1) else acc
      else (acc.1 + (if isDone then tot else min cur tot), acc.2 + tot))
    (0, 0)

/-- `Math.round((num / denom) * 100)` for a positive denominator. -/
def jsRoundRatio100 (num denom : ℤ) : ℤ := (200 * num + denom) / (2 * denom)

/-- The aggregate percentage of `computeTotals` (DockerodeDocker.mjs lines
423–426): frozen denominator when set, otherwise the running total; `none`
models the `null` percentage of a zero denominator. -/
def computePercent (dl : Bool) (s : PullState) : Option ℤ :=
  let t := totalsFold dl s.layers
  let frozen := if dl then s.dlDenomFrozen else s.xDenomFrozen
  let denom := if 0 < frozen then frozen else t.2
  if 0 < denom then some (max 0 (min 100 (jsRoundRatio100 t.1 denom))) else none

/-- Update an association-list layer map at a key. -/
def updateAssoc (m : List (List Char × LayerSt)) (k : List Char)
    (f : LayerSt → LayerSt) : List (List Char × LayerSt) :=
  m.map (fun p => if p.1 = k then (p.1, f p.2) else p)

/-- Stages 1–3 of the event callback (DockerodeDocker.mjs lines 341–441):
seed an unseen layer (prefetched size when available), apply the per-layer
updates, then run the denominator-freeze step.  The clamp fields
`lastDlPercent` / `lastXPercent` are untouched here. -/
def pullStepLayers (s : PullState) (e : PullEvent) : PullState :=
  let f := statusFlagsOf e.status
  let id? := layerIdOf e.rawId
  let s1 :=
    match id? with
    | none => s
    | some id =>
      if (s.layers.lookup id).isSome then s
      else
        let prefSize := (s.prefetchedSizes.lookup id).getD 0
        let seedTotal := if 0 < prefSize then prefSize else 0
        { s with
          layers := s.layers ++ [(id,
            { dlCurrent := 0, dlTotal := seedTotal, dlComplete := false,
              xCurrent := 0, xTotal := seedTotal, xComplete := false,
              alreadyExists := false })]
          lastNewLayerAtMs := e.nowMs }
  let s2 :=
    match id? with
    | none => s1
    | some id =>
      { s1 with layers := updateAssoc s1.layers id (updateLayer f e.current e.total) }
  -- denominator freeze after 1.5 s without a new layer (lines 429–441)
  if !s2.prefetched ∧ 1500 ≤ e.nowMs - s2.lastNewLayerAtMs then
    let s3 :=
      if s2.dlDenomFrozen = 0 ∧ 0 < (totalsFold true s2.layers).2 then
        { s2 with dlDenomFrozen := (totalsFold true s2.layers).2 }
      else s2
    if s3.xDenomFrozen = 0 ∧ 0 < (totalsFold false s3.layers).2 then
      { s3 with xDenomFrozen := (totalsFold false s3.layers).2 }
    else s3
  else s2

/-- One event of the pull stream: layer/freeze stages, then the
monotonicity clamp `max(previous, computed)` of DockerodeDocker.mjs lines
443–456; returns the new state and the emitted
`(downloadProgress, extractProgress)` pair. -/
def pullStep (s : PullState) (e : PullEvent) : PullState × (Option ℤ × Option ℤ) :=
  let s1 := pullStepLayers s e
  let dlP := computePercent true s1
  let xP := computePercent false s1
  match dlP, xP with
  | none, none => (s1, (none, none))
  | some c, none =>
    let v := max s1.lastDlPercent c
    ({ s1 with lastDlPercent := v }, (some v, none))
  | none, some c =>
    let v := max s1.lastXPercent c
    ({ s1 with lastXPercent := v }, (none, some v))
  | some c, some cx =>
    let v := max s1.lastDlPercent c
    let vx := max s1.lastXPercent cx
    ({ s1 with lastDlPercent := v, lastXPercent := vx }, (some v, some vx))

/-- The emitted `(downloadProgress, extractProgress)` pairs over an event
sequence. -/
def pullEmits (s : PullState) : List PullEvent → List (Option ℤ × Option ℤ)
  | [] => []
  | e :: rest => (pullStep s e).2 :: pullEmits (pullStep s e).1 rest

/-- The initial pull state (DockerodeDocker.mjs lines 219–235 and the
prefetch seeding of lines 282–298). -/
def initPullState (startMs : ℤ) (prefetch : Option (List (List Char × ℤ))) :
    PullState :=
  match prefetch with
  | none =>
    { layers := [], lastNewLayerAtMs := startMs, dlDenomFrozen := 0,
      xDenomFrozen := 0, lastDlPercent := 0, lastXPercent := 0,
      prefetched := false, prefetchedSizes := [] }
  | some sizes =>
    let total := (sizes.map Prod.snd).foldl (· + ·) 0
    { layers := (sizes.filter (fun p => !(p.1 = []) && decide (0 < p.2))).map
        (fun p => (p.1,
          { dlCurrent := 0, dlTotal := p.2, dlComplete := false,
            xCurrent := 0, xTotal := p.2, xComplete := false,
            alreadyExists := false })),
      lastNewLayerAtMs := startMs, dlDenomFrozen := total, xDenomFrozen := total,
      lastDlPercent := 0, lastXPercent := 0, prefetched := true,
      prefetchedSizes := sizes }

/-! ## Version transition protocol (`shell/service_versions/index.js`,
lines 882–937 and 1485–1600; `updateToLatest`, lines 1213–1377, shares the
same switch and catch-block shape)

The container daemon is modelled as a list of containers; daemon-side
outcomes that the orchestrator cannot influence (create result, start
result, UI reachability, compensation outcomes) are supplied by a
`SwitchEnv`.  `renameContainer` and `createContainer` fail with `CONFLICT`
when the target name is already taken, as the daemon does. -/

/-- Daemon-side outcomes injected into one run of the switch. -/
structure SwitchEnv where
  imageInstalled : Bool
  createResult : Except ErrCode (List Char)
  startNewResult : Except ErrCode Unit
  uiReachable : Bool
  compDeleteOk : Bool
  compStartOk : Bool
  retainedAtD : DateT
  deriving Repr

/-- Set a container's state. -/
def setState (w : List ContainerInfo) (id st : List Char) : List ContainerInfo :=
  w.map (fun c => if c.containerId = id then { c with state := st } else c)

/-- Set a container's name. -/
def setName (w : List ContainerInfo) (id nm : List Char) : List ContainerInfo :=
  w.map (fun c => if c.containerId = id then { c with containerName := nm } else c)

/-- Remove a container. -/
def removeC (w : List ContainerInfo) (id : List Char) : List ContainerInfo :=
  w.filter (fun c => !(c.containerId = id))

/-- `renameContainer`: conflict when another container holds the name. -/
def renameC (w : List ContainerInfo) (id nm : List Char) :
    Except ErrCode (List ContainerInfo) :=
  if w.any (fun c => c.containerName = nm && !(c.containerId = id)) then
    .error .CONFLICT
  else .ok (setName w id nm)

/-- Whether the stop branch runs for the active container
(`!state || state === 'running'` after lowercasing). -/
def stopNeeded (a : ContainerInfo) : Bool :=
  toLowerCL a.state = [] || toLowerCL a.state = "running".toList

/-- The catch block of `activateVersion` / `updateToLatest` (index.js lines
1564–1582 and 1339–1358): best-effort delete of the created instance when
its id was recorded, then — in a single swallow-all try — rename the
previously retained instance back to the active name and restart it.
Returns the resulting world; every compensation failure is swallowed. -/
def switchCatch (activeName : List Char) (env : SwitchEnv)
    (w : List ContainerInfo) (retained? created? : Option (List Char)) :
    List ContainerInfo :=
  let wA := match created? with
    | some id => if env.compDeleteOk then removeC w id else w
    | none => w
  match retained? with
  | some rid =>
    (match renameC wA rid activeName with
      | .error _ => wA
      | .ok wA2 => if env.compStartOk then setState wA2 rid "running".toList else wA2)
  | none => wA

/-- The switch section of `activateVersion` (index.js lines 1509–1563):
local-image check, stop + rename of the current active instance, create and
start of the new active instance (`createdNew` is assigned only when
`createAndStartActiveContainer` returns, so a start failure leaves it
unset), UI wait, and the catch block on any failure.  Returns the final
world and `some code` when the operation finishes `failed`. -/
def activateSwitch (imageRepo t : List Char) (w0 : List ContainerInfo)
    (env : SwitchEnv) : List ContainerInfo × Option ErrCode :=
  let activeName := getActiveContainerName imageRepo
  if !env.imageInstalled then
    (switchCatch activeName env w0 none none, some .NOT_INSTALLED)
  else
    let active? := w0.find? (fun c => c.containerName = activeName)
    let afterRetain : Except (List ContainerInfo × ErrCode)
        (List ContainerInfo × Option (List Char)) :=
      match active? with
      | some a =>
        let w1 := if stopNeeded a then setState w0 a.containerId "exited".toList else w0
        let rname := makeRetainedContainerName imageRepo
          (if a.tag = [] then "unknown".toList else a.tag) env.retainedAtD
        (match renameC w1 a.containerId rname with
          | .error e => .error (w1, e)
          | .ok w2 => .ok (w2, some a.containerId))
      | none => .ok (w0, none)
    match afterRetain with
    | .error (w1, e) => (switchCatch activeName env w1 none none, some e)
    | .ok (w2, retained?) =>
      if w2.any (fun c => c.containerName = activeName) then
        (switchCatch activeName env w2 retained? none, some .CONFLICT)
      else
        match env.createResult with
        | .error e => (switchCatch activeName env w2 retained? none, some e)
        | .ok newId =>
          let w3 := w2 ++ [⟨newId, activeName, t, "created".toList⟩]
          match env.startNewResult with
          | .error e => (switchCatch activeName env w3 retained? none, some e)
          | .ok _ =>
            let w4 := setState w3 newId "running".toList
            if !env.uiReachable then
              (switchCatch activeName env w4 retained? (some newId), some .UI_NOT_READY)
            else (w4, none)

/-! ## Theorems -/

lemma jsSplitUU_ne_nil (l : List Char) : jsSplitUU l ≠ [] := by
  induction l using jsSplitUU.induct with
  | case1 => simp [jsSplitUU.eq_1]
  | case2 rest ih => simp [jsSplitUU.eq_2]
  | case3 c rest hg hnil ih => rw [jsSplitUU.eq_3 c rest hg, hnil]; simp
  | case4 c rest hg h t heq ih => rw [jsSplitUU.eq_3 c rest hg, heq]; simp

lemma joinUU_jsSplitUU (l : List Char) : joinUU (jsSplitUU l) = l := by
  induction l using jsSplitUU.induct with
  | case1 => simp [jsSplitUU.eq_1, joinUU, List.intercalate]
  | case2 rest ih =>
    rw [jsSplitUU.eq_2]
    rcases hsp : jsSplitUU rest with _ | ⟨h, t⟩
    · exact absurd hsp (jsSplitUU_ne_nil rest)
    · rw [hsp] at ih
      simp only [joinUU, List.intercalate] at ih ⊢
      simp [List.intersperse, ih]
  | case3 c rest hg hnil ih => exact absurd hnil (jsSplitUU_ne_nil rest)
  | case4 c rest hg h t heq ih =>
    rw [jsSplitUU.eq_3 c rest hg, heq]
    rw [heq] at ih
    simp only [joinUU, List.intercalate] at ih ⊢
    rcases t with _ | ⟨t0, ts⟩
    · simpa using ih
    · simp only [List.intersperse] at ih ⊢
      simp at ih ⊢
      exact ih


lemma cleanUU_tail (c : Char) (a : List Char) (h : cleanUU (c :: a) = true) :
    cleanUU a = true := by
  rcases a with _ | ⟨d, a2⟩
  · rfl
  · by_cases hc : c = '_'
    · subst hc
      by_cases hd : d = '_'
      · subst hd; simp [cleanUU] at h
      · rwa [cleanUU.eq_4 _ _ (by simp) (by intro t h1 h2; exact hd (List.cons.injEq .. ▸ h2).1)] at h
    · rwa [cleanUU.eq_4 _ _ (by intro h1; exact absurd h1 hc) (by intro t h1; exact absurd h1 hc)] at h

lemma jsSplitUU_append (a b : List Char) (h : cleanUU a = true) :
    jsSplitUU (a ++ '_' :: '_' :: b) = a :: jsSplitUU b := by
  induction a with
  | nil => simp [jsSplitUU.eq_2]
  | cons c a2 ih =>
    have hguard : ∀ rest1 : List Char, c = '_' → a2 ++ '_' :: '_' :: b = '_' :: rest1 → False := by
      intro rest1 hc hrest
      subst hc
      rcases a2 with _ | ⟨d, a3⟩
      · simp [cleanUU] at h
      · by_cases hd : d = '_'
        · subst hd; simp [cleanUU] at h
        · simp only [List.cons_append] at hrest
          exact hd (List.cons.injEq .. ▸ hrest).1
    have ih2 := ih (cleanUU_tail c a2 h)
    rw [List.cons_append, jsSplitUU.eq_3 c _ hguard, ih2]

lemma safeChar_printable (c : Char) (h : isSafeTagChar c = true) : isPrintableAscii c = true := by
  simp only [isSafeTagChar, Bool.or_eq_true] at h
  simp only [isPrintableAscii, Bool.and_eq_true, decide_eq_true_eq]
  rcases h with ((h | h) | h) | h
  · simp only [Char.isAlphanum, Bool.or_eq_true, Char.isAlpha, Char.isUpper, Char.isLower,
      Char.isDigit, Bool.and_eq_true, decide_eq_true_eq] at h
    rcases h with (⟨h1, h2⟩ | ⟨h1, h2⟩) | ⟨h1, h2⟩
    · exact ⟨le_trans (by norm_num) (h1 : (65 : ℕ) ≤ c.toNat),
        le_trans (h2 : c.toNat ≤ (90 : ℕ)) (by norm_num)⟩
    · exact ⟨le_trans (by norm_num) (h1 : (97 : ℕ) ≤ c.toNat),
        le_trans (h2 : c.toNat ≤ (122 : ℕ)) (by norm_num)⟩
    · exact ⟨le_trans (by norm_num) (h1 : (48 : ℕ) ≤ c.toNat),
        le_trans (h2 : c.toNat ≤ (57 : ℕ)) (by norm_num)⟩
  · simp only [decide_eq_true_eq] at h; subst h; decide
  · simp only [decide_eq_true_eq] at h; subst h; decide
  · simp only [decide_eq_true_eq] at h; subst h; decide

lemma safeChar_not_whitespace (c : Char) (h : isSafeTagChar c = true) :
    c.isWhitespace = false := by
  by_contra hw
  have hw2 : c.isWhitespace = true := by simpa using hw
  simp only [Char.isWhitespace, Bool.or_eq_true, decide_eq_true_eq] at hw2
  rcases hw2 with ((h1 | h1) | h1) | h1 <;> subst h1 <;> simp [isSafeTagChar] at h

lemma dropWhile_eq_self_of_none (p : Char → Bool) (l : List Char)
    (h : ∀ c ∈ l, p c = false) : l.dropWhile p = l := by
  rcases l with _ | ⟨c, rest⟩
  · rfl
  · simp [List.dropWhile, h c (by simp)]

lemma jsTrim_eq_self (l : List Char) (h : ∀ c ∈ l, c.isWhitespace = false) :
    jsTrim l = l := by
  unfold jsTrim
  rw [dropWhile_eq_self_of_none _ l h,
    dropWhile_eq_self_of_none _ l.reverse (fun c hc => h c (by simpa using hc)),
    List.reverse_reverse]

lemma collapseBadRunsAux_id (l : List Char) (h : ∀ c ∈ l, isNamePartChar c = true) :
    ∀ flag, collapseBadRunsAux flag l = l := by
  induction l with
  | nil => intro flag; rfl
  | cons c rest ih =>
    intro flag
    simp only [collapseBadRunsAux, h c (by simp), if_true]
    rw [ih (fun d hd => h d (List.mem_cons_of_mem c hd)) false]

lemma mem_dropWhile (p : Char → Bool) (l : List Char) (c : Char)
    (h : c ∈ l.dropWhile p) : c ∈ l := by
  induction l with
  | nil => simp [List.dropWhile] at h
  | cons d rest ih =>
    simp only [List.dropWhile] at h
    by_cases hp : p d
    · simp [hp] at h; exact List.mem_cons_of_mem d (ih h)
    · simp [hp] at h; simpa using h

lemma mem_stripDashEnds (l : List Char) (c : Char) (h : c ∈ stripDashEnds l) : c ∈ l := by
  unfold stripDashEnds at h
  rw [List.mem_reverse] at h
  have h2 := mem_dropWhile _ _ _ h
  rw [List.mem_reverse] at h2
  exact mem_dropWhile _ _ _ h2

lemma stripDashEnds_eq_self (l : List Char) (hhead : l.head? ≠ some '-')
    (hlast : l.getLast? ≠ some '-') : stripDashEnds l = l := by
  unfold stripDashEnds
  have h1 : l.dropWhile (fun c => c = '-') = l := by
    rcases l with _ | ⟨c, rest⟩
    · rfl
    · simp only [List.head?] at hhead
      have : (c = '-') = False := by simp; intro hc; exact hhead (by rw [hc])
      simp [List.dropWhile, this]
  rw [h1]
  have h2 : l.reverse.dropWhile (fun c => c = '-') = l.reverse := by
    rcases hr : l.reverse with _ | ⟨c, rest⟩
    · rfl
    · have hc : l.getLast? = some c := by
        rw [← List.head?_reverse, hr]; rfl
      have : (c = '-') = False := by
        simp; intro hceq; exact hlast (by rw [hc, hceq])
      simp [List.dropWhile, this]
  rw [h2, List.reverse_reverse]

lemma matchesSafeTagPattern_chars (l : List Char) (h : matchesSafeTagPattern l = true) :
    ∀ c ∈ l, isSafeTagChar c = true := by
  rcases l with _ | ⟨c, rest⟩
  · simp
  · simp only [matchesSafeTagPattern, Bool.and_eq_true, List.all_eq_true] at h
    intro d hd
    rcases List.mem_cons.mp hd with h1 | h1
    · subst h1; simp [isSafeTagChar, h.1]
    · exact h.2 d h1

lemma sanitizeNamePart_eq_self (l : List Char) (hpat : matchesSafeTagPattern l = true)
    (hlast : l.getLast? ≠ some '-') : sanitizeNamePart l = l := by
  have hchars := matchesSafeTagPattern_chars l hpat
  have hne : l ≠ [] := by rcases l with _ | _ <;> simp_all [matchesSafeTagPattern]
  have htrim : jsTrim l = l :=
    jsTrim_eq_self l (fun c hc => safeChar_not_whitespace c (hchars c hc))
  have hfilter : l.filter isPrintableAscii = l :=
    List.filter_eq_self.mpr (fun c hc => safeChar_printable c (hchars c hc))
  have hcollapse : collapseBadRuns l = l :=
    collapseBadRunsAux_id l (fun c hc => hchars c hc) false
  have hhead : l.head? ≠ some '-' := by
    rcases l with _ | ⟨c, rest⟩
    · simp
    · simp only [matchesSafeTagPattern, Bool.and_eq_true] at hpat
      simp only [List.head?, ne_eq, Option.some.injEq]
      intro hc
      subst hc
      simp [Char.isAlphanum, Char.isAlpha, Char.isUpper, Char.isLower, Char.isDigit] at hpat
  unfold sanitizeNamePart
  rw [htrim]
  simp only [List.isEmpty_eq_true, hne, if_false]
  rw [hfilter, hcollapse, stripDashEnds_eq_self l hhead hlast]
  simp [List.isEmpty_eq_true, hne]

lemma unknown_chars : ∀ c ∈ "unknown".toList, isNamePartChar c = true := by decide

lemma collapseBadRunsAux_chars (l : List Char) :
    ∀ flag, ∀ c ∈ collapseBadRunsAux flag l, isNamePartChar c = true := by
  induction l with
  | nil => intro flag c hc; simp [collapseBadRunsAux] at hc
  | cons d rest ih =>
    intro flag c hc
    simp only [collapseBadRunsAux] at hc
    by_cases hd : isNamePartChar d
    · simp only [hd, if_true] at hc
      rcases List.mem_cons.mp hc with h1 | h1
      · subst h1; exact hd
      · exact ih false c h1
    · simp only [hd, if_false] at hc
      rcases flag with _ | _
      · simp only [Bool.false_eq_true, if_false] at hc
        rcases List.mem_cons.mp hc with h1 | h1
        · subst h1; decide
        · exact ih true c h1
      · simp only [if_true] at hc
        exact ih true c hc

lemma sanitizeNamePart_chars (v : List Char) :
    ∀ c ∈ sanitizeNamePart v, isNamePartChar c = true := by
  intro c hc
  unfold sanitizeNamePart at hc
  by_cases h1 : (jsTrim v).isEmpty
  · simp only [h1, if_true] at hc
    exact unknown_chars c hc
  · simp only [h1, if_false] at hc
    by_cases h2 :
        (stripDashEnds (collapseBadRuns ((jsTrim v).filter isPrintableAscii))).isEmpty
    · simp only [h2, if_true] at hc
      exact unknown_chars c hc
    · simp only [h2, if_false] at hc
      exact collapseBadRunsAux_chars _ false c (mem_stripDashEnds _ c hc)

lemma sanitizeNamePart_ne_nil (v : List Char) : sanitizeNamePart v ≠ [] := by
  unfold sanitizeNamePart
  by_cases h1 : (jsTrim v).isEmpty
  · simp [h1]
  · simp only [h1, if_false]
    by_cases h2 :
        (stripDashEnds (collapseBadRuns ((jsTrim v).filter isPrintableAscii))).isEmpty
    · simp [h2]
    · simp only [h2, if_false]
      simpa [List.isEmpty_eq_true] using h2

lemma natDigitsAux_congr (f1 : ℕ) : ∀ f2 n, n < f1 → n < f2 →
    natDigitsAux f1 n = natDigitsAux f2 n := by
  induction f1 with
  | zero => intro f2 n h1 h2; omega
  | succ f ih =>
    intro f2 n h1 h2
    rcases f2 with _ | f2b
    · omega
    · simp only [natDigitsAux]
      by_cases hn : n < 10
      · simp [hn]
      · simp only [hn, if_false]
        rw [ih f2b (n / 10) (by omega) (by omega)]

lemma natDigits_eq_rec (n : ℕ) :
    natDigits n = if n < 10 then [digitChar n]
      else natDigits (n / 10) ++ [digitChar (n % 10)] := by
  by_cases hn : n < 10
  · simp [natDigits, natDigitsAux, hn]
  · rw [if_neg hn]
    show natDigitsAux (n + 1) n = natDigitsAux (n / 10 + 1) (n / 10) ++ [digitChar (n % 10)]
    rw [show natDigitsAux (n + 1) n = natDigitsAux n (n / 10) ++ [digitChar (n % 10)] from by
      simp [natDigitsAux, hn]]
    rw [natDigitsAux_congr n (n / 10 + 1) (n / 10) (by omega) (by omega)]

lemma digitChar_isDigit (n : ℕ) (h : n ≤ 9) : (digitChar n).isDigit = true := by
  interval_cases n <;> decide

lemma natDigits_year (y : ℕ) (h1 : 1000 ≤ y) (h2 : y ≤ 9999) :
    natDigits y = [digitChar (y / 1000), digitChar (y / 100 % 10),
      digitChar (y / 10 % 10), digitChar (y % 10)] := by
  rw [natDigits_eq_rec y]
  simp only [show ¬(y < 10) by omega, if_false]
  rw [natDigits_eq_rec (y / 10)]
  simp only [show ¬(y / 10 < 10) by omega, if_false]
  rw [natDigits_eq_rec (y / 10 / 10)]
  simp only [show ¬(y / 10 / 10 < 10) by omega, if_false]
  rw [natDigits_eq_rec (y / 10 / 10 / 10)]
  simp only [show y / 10 / 10 / 10 < 10 by omega, if_true]
  have e1 : y / 10 / 10 / 10 = y / 1000 := by omega
  have e2 : y / 10 / 10 = y / 100 := by omega
  rw [e1, e2]
  simp

lemma padTwo_pair (n : ℕ) (h : n ≤ 99) :
    ∃ a b, padTwo n = [a, b] ∧ a.isDigit = true ∧ b.isDigit = true := by
  unfold padTwo
  by_cases hn : n < 10
  · refine ⟨'0', digitChar n, ?_, by decide, digitChar_isDigit n (by omega)⟩
    rw [if_pos hn, natDigits_eq_rec n, if_pos hn]
  · refine ⟨digitChar (n / 10), digitChar (n % 10), ?_,
      digitChar_isDigit _ (by omega), digitChar_isDigit _ (by omega)⟩
    rw [if_neg hn, natDigits_eq_rec n, if_neg hn, natDigits_eq_rec (n / 10),
      if_pos (by omega)]
    rfl


lemma cleanUU_of_ne (l : List Char) (h : ∀ c ∈ l, c ≠ '_') : cleanUU l = true := by
  induction l using cleanUU.induct with
  | case1 => rfl
  | case2 => exact absurd rfl (h '_' (by simp))
  | case3 rest => exact absurd rfl (h '_' (by simp))
  | case4 c rest hg1 hg2 ih =>
    rw [cleanUU.eq_4 c rest hg1 hg2]
    exact ih (fun d hd => h d (List.mem_cons_of_mem c hd))

lemma isDigit_ne_underscore (c : Char) (h : c.isDigit = true) : c ≠ '_' := by
  intro hc; subst hc; simp [Char.isDigit] at h

lemma isDigit_not_ws (c : Char) (h : c.isDigit = true) : c.isWhitespace = false := by
  by_contra hw
  have hw2 : c.isWhitespace = true := by simpa using hw
  simp only [Char.isWhitespace, Bool.or_eq_true, decide_eq_true_eq] at hw2
  rcases hw2 with ((h1 | h1) | h1) | h1 <;> subst h1 <;> simp [Char.isDigit] at h

lemma startsWithCL_append (p r : List Char) : startsWithCL (p ++ r) p = true := by
  induction p with
  | nil => rw [List.nil_append]; rcases r with _ | _ <;> rfl
  | cons c ps ih => simp [startsWithCL, ih]

lemma namePartChar_eq_safeTagChar : isNamePartChar = isSafeTagChar := rfl


lemma compactTs_decomp (d : DateT) (hy1 : 1000 ≤ d.year) (hy2 : d.year ≤ 9999)
    (hmo : d.month ≤ 99) (hda : d.day ≤ 99) (hh : d.hour ≤ 99) (hmi : d.minute ≤ 99)
    (hs : d.second ≤ 99) :
    (∀ c ∈ isoToCompactTimestamp d, c.isDigit = true ∨ c = 'T' ∨ c = 'Z') ∧
      compactTimestampToIso (isoToCompactTimestamp d) = some (isoUtcSeconds d) := by
  obtain ⟨m1, m2, hm, hm1, hm2⟩ := padTwo_pair d.month hmo
  obtain ⟨d1, d2, hd, hd1, hd2⟩ := padTwo_pair d.day hda
  obtain ⟨h1, h2, hho, hh1, hh2⟩ := padTwo_pair d.hour hh
  obtain ⟨i1, i2, hi, hi1, hi2⟩ := padTwo_pair d.minute hmi
  obtain ⟨s1, s2, hsec, hs1, hs2⟩ := padTwo_pair d.second hs
  have hyd := natDigits_year d.year hy1 hy2
  have hy1d : (digitChar (d.year / 1000)).isDigit = true := digitChar_isDigit _ (by omega)
  have hy2d : (digitChar (d.year / 100 % 10)).isDigit = true := digitChar_isDigit _ (by omega)
  have hy3d : (digitChar (d.year / 10 % 10)).isDigit = true := digitChar_isDigit _ (by omega)
  have hy4d : (digitChar (d.year % 10)).isDigit = true := digitChar_isDigit _ (by omega)
  have hTS : isoToCompactTimestamp d =
      [digitChar (d.year / 1000), digitChar (d.year / 100 % 10), digitChar (d.year / 10 % 10),
        digitChar (d.year % 10), m1, m2, d1, d2, 'T', h1, h2, i1, i2, s1, s2, 'Z'] := by
    unfold isoToCompactTimestamp
    rw [hyd, hm, hd, hho, hi, hsec]
    rfl
  have hmem : ∀ c ∈ isoToCompactTimestamp d, c.isDigit = true ∨ c = 'T' ∨ c = 'Z' := by
    intro c hc
    rw [hTS] at hc
    simp only [List.mem_cons, List.not_mem_nil, or_false] at hc
    rcases hc with h | h | h | h | h | h | h | h | h | h | h | h | h | h | h | h <;>
      subst h <;> simp_all
  refine ⟨hmem, ?_⟩
  have htrim : jsTrim (isoToCompactTimestamp d) = isoToCompactTimestamp d := by
    refine jsTrim_eq_self _ (fun c hc => ?_)
    rcases hmem c hc with h | h | h
    · exact isDigit_not_ws c h
    · subst h; rfl
    · subst h; rfl
  unfold compactTimestampToIso
  simp only [htrim]
  rw [hTS]
  have hmatch : matchesCompactTs
      [digitChar (d.year / 1000), digitChar (d.year / 100 % 10), digitChar (d.year / 10 % 10),
        digitChar (d.year % 10), m1, m2, d1, d2, 'T', h1, h2, i1, i2, s1, s2, 'Z'] = true := by
    simp [matchesCompactTs, hy1d, hy2d, hy3d, hy4d, hm1, hm2, hd1, hd2, hh1, hh2, hi1, hi2,
      hs1, hs2]
  rw [hmatch]
  simp only [if_true]
  unfold isoUtcSeconds
  rw [hyd, hm, hd, hho, hi, hsec]
  rfl


lemma parse_make_roundTrip (repo tag : List Char) (d : DateT)
    (hpat : matchesSafeTagPattern tag = true) (hlast : tag.getLast? ≠ some '-')
    (hslug : cleanUU (repoSlug repo) = true) (hd : validUtcDate d) :
    parseRetainedContainerName (makeRetainedContainerName repo tag d) =
      some ⟨tag, isoUtcSeconds d⟩ := by
  obtain ⟨hy1, hy2, hmo1, hmo2, hda1, hda2, hho, hmi, hse⟩ := hd
  obtain ⟨hmem, hiso⟩ := compactTs_decomp d hy1 hy2 (by omega) (by omega) (by omega)
    (by omega) (by omega)
  have htag : sanitizeNamePart tag = tag := sanitizeNamePart_eq_self tag hpat hlast
  have htagchars := matchesSafeTagPattern_chars tag hpat
  have htagne : tag ≠ [] := by rcases tag with _ | _ <;> simp_all [matchesSafeTagPattern]
  have hname0 : makeRetainedContainerName repo tag d =
      "a0-svc-retained__".toList ++
        (repoSlug repo ++ '_' :: '_' :: (isoToCompactTimestamp d ++ '_' :: '_' :: tag)) := by
    unfold makeRetainedContainerName
    rw [htag]
    simp only [List.append_assoc, List.cons_append]
  have hsplitP : "a0-svc-retained__".toList = "a0-svc-retained".toList ++ ['_', '_'] := by
    decide
  have hname1 : makeRetainedContainerName repo tag d =
      "a0-svc-retained".toList ++ '_' :: '_' ::
        (repoSlug repo ++ '_' :: '_' :: (isoToCompactTimestamp d ++ '_' :: '_' :: tag)) := by
    rw [hname0, hsplitP, List.append_assoc]
    rfl
  -- no whitespace anywhere in the constructed name
  have hnows : ∀ c ∈ makeRetainedContainerName repo tag d, c.isWhitespace = false := by
    rw [hname1]
    refine List.forall_mem_append.mpr ⟨by decide, ?_⟩
    refine List.forall_mem_cons.mpr ⟨rfl, ?_⟩
    refine List.forall_mem_cons.mpr ⟨rfl, ?_⟩
    refine List.forall_mem_append.mpr ⟨?_, ?_⟩
    · intro c h
      have := sanitizeNamePart_chars (repo.map (fun c => if c = '/' then '-' else c)) c h
      rw [namePartChar_eq_safeTagChar] at this
      exact safeChar_not_whitespace c this
    refine List.forall_mem_cons.mpr ⟨rfl, ?_⟩
    refine List.forall_mem_cons.mpr ⟨rfl, ?_⟩
    refine List.forall_mem_append.mpr ⟨?_, ?_⟩
    · intro c h
      rcases hmem c h with hg | hg | hg
      · exact isDigit_not_ws c hg
      · subst hg; rfl
      · subst hg; rfl
    refine List.forall_mem_cons.mpr ⟨rfl, ?_⟩
    refine List.forall_mem_cons.mpr ⟨rfl, ?_⟩
    intro c h
    exact safeChar_not_whitespace c (htagchars c h)
  have htrim : jsTrim (makeRetainedContainerName repo tag d) =
      makeRetainedContainerName repo tag d := jsTrim_eq_self _ hnows
  have hsw : startsWithCL (makeRetainedContainerName repo tag d)
      "a0-svc-retained__".toList = true := by
    rw [hname0]; exact startsWithCL_append _ _
  have hcleanTS : cleanUU (isoToCompactTimestamp d) = true := by
    refine cleanUU_of_ne _ (fun c hc => ?_)
    rcases hmem c hc with hg | hg | hg
    · exact isDigit_ne_underscore c hg
    · subst hg; decide
    · subst hg; decide
  have hsplit : jsSplitUU (makeRetainedContainerName repo tag d) =
      "a0-svc-retained".toList :: repoSlug repo :: isoToCompactTimestamp d ::
        jsSplitUU tag := by
    rw [hname1, jsSplitUU_append _ _ (by decide), jsSplitUU_append _ _ hslug,
      jsSplitUU_append _ _ hcleanTS]
  have hlen : ¬ (jsSplitUU (makeRetainedContainerName repo tag d)).length < 4 := by
    rw [hsplit]
    have h1 : jsSplitUU tag ≠ [] := jsSplitUU_ne_nil tag
    have h2 : 0 < (jsSplitUU tag).length := List.length_pos.mpr h1
    simp only [List.length_cons]
    omega
  have hlen2 : 0 < (jsSplitUU tag).length :=
    List.length_pos.mpr (jsSplitUU_ne_nil tag)
  unfold parseRetainedContainerName
  simp only [htrim, hsw, Bool.not_true, Bool.false_eq_true, if_false, hsplit,
    List.length_cons, List.getD_cons_succ, List.getD_cons_zero, hiso,
    List.drop_succ_cons, List.drop_zero, joinUU_jsSplitUU,
    show ((jsSplitUU tag).length + 1 + 1 + 1 < 4) = False by simp; omega]
  simp [List.isEmpty_eq_true, htagne]


/-- C4: the install allow-list rejects `../etc`, `a:b` and `v1.0.0; rm -rf`
with `INVALID_TAG`, accepts `v1.2.3` and `testing`, and in general accepts a
tag exactly when it matches the safe-character pattern and is the preview
tag, a semantic-version release tag, or a canonical local-build tag. -/
theorem C4_install_tag_allowlist :
    (assertTagAllowedForInstall "../etc".toList = .error .INVALID_TAG) ∧
    (assertTagAllowedForInstall "a:b".toList = .error .INVALID_TAG) ∧
    (assertTagAllowedForInstall "v1.0.0; rm -rf".toList = .error .INVALID_TAG) ∧
    (assertTagAllowedForInstall "v1.2.3".toList = .ok "v1.2.3".toList) ∧
    (assertTagAllowedForInstall "testing".toList = .ok "testing".toList) ∧
    (∀ tag : List Char, (∃ t, assertTagAllowedForInstall tag = .ok t) ↔
      (isSafeTag (jsTrim tag) = true ∧
        (isTestingTag (jsTrim tag) = true ∨ isSemverReleaseTag (jsTrim tag) = true ∨
          isCanonicalLocalTag (jsTrim tag) = true))) := by
  refine ⟨by decide, by decide, by decide, by decide, by decide, ?_⟩
  intro tag
  constructor
  · rintro ⟨t, ht⟩
    by_cases h1 : isSafeTag (jsTrim tag) = true
    · by_cases h2 : (isTestingTag (jsTrim tag) || isSemverReleaseTag (jsTrim tag) ||
          isCanonicalLocalTag (jsTrim tag)) = true
      · exact ⟨h1, by simpa [Bool.or_eq_true, or_assoc] using h2⟩
      · simp [assertTagAllowedForInstall, h1, h2] at ht
    · simp [assertTagAllowedForInstall, h1] at ht
  · rintro ⟨h1, h2⟩
    refine ⟨jsTrim tag, ?_⟩
    have h2b : (isTestingTag (jsTrim tag) || isSemverReleaseTag (jsTrim tag) ||
        isCanonicalLocalTag (jsTrim tag)) = true := by
      simpa [Bool.or_eq_true, or_assoc] using h2
    simp [assertTagAllowedForInstall, h1, h2b]

/-- C9 (counterexample): the round trip fails as stated — the tag `a-`
matches the safe pattern, yet `sanitizeNamePart` strips its trailing dash,
so parsing the retained name returns `a` instead of `a-`. -/
theorem C9_roundTrip_counterexample :
    matchesSafeTagPattern "a-".toList = true ∧
    validUtcDate ⟨2025, 1, 2, 3, 4, 5⟩ ∧
    parseRetainedContainerName (makeRetainedContainerName
        "agent0ai/agent-zero".toList "a-".toList ⟨2025, 1, 2, 3, 4, 5⟩) =
      some ⟨"a".toList, "2025-01-02T03:04:05Z".toList⟩ ∧
    "a".toList ≠ "a-".toList := by
  refine ⟨by decide, by decide, by decide, by decide⟩

/-- C9 (amended): for a tag matching the safe pattern that does not end in a
dash, a repository whose slug scans cleanly past the `__` separator, and a
timestamp with in-range UTC components, parsing the made name returns the
original tag and the timestamp truncated to whole UTC seconds; names with a
wrong prefix, too few segments, a malformed timestamp segment, or an empty
tag segment parse to `none`. -/
theorem C9_retained_name_roundTrip :
    (∀ (repo tag : List Char) (d : DateT), matchesSafeTagPattern tag = true →
      tag.getLast? ≠ some '-' → cleanUU (repoSlug repo) = true → validUtcDate d →
      parseRetainedContainerName (makeRetainedContainerName repo tag d) =
        some ⟨tag, isoUtcSeconds d⟩) ∧
    (∀ name : List Char, startsWithCL (jsTrim name) "a0-svc-retained__".toList = false →
      parseRetainedContainerName name = none) ∧
    (∀ name : List Char, (jsSplitUU (jsTrim name)).length < 4 →
      parseRetainedContainerName name = none) ∧
    (∀ name : List Char,
      compactTimestampToIso ((jsSplitUU (jsTrim name)).getD 2 []) = none →
      parseRetainedContainerName name = none) ∧
    (∀ name : List Char, joinUU ((jsSplitUU (jsTrim name)).drop 3) = [] →
      parseRetainedContainerName name = none) := by
  refine ⟨?_, ?_, ?_, ?_, ?_⟩
  · intro repo tag d hpat hlast hslug hd
    exact parse_make_roundTrip repo tag d hpat hlast hslug hd
  · intro name h
    unfold parseRetainedContainerName
    simp only [h, Bool.not_false, if_true]
  · intro name h
    unfold parseRetainedContainerName
    rcases hsw : startsWithCL (jsTrim name) "a0-svc-retained__".toList
    · simp only [hsw, Bool.not_false, if_true]
    · simp only [hsw, Bool.not_true, Bool.false_eq_true, if_false]
      rw [if_pos h]
  · intro name h
    unfold parseRetainedContainerName
    rcases hsw : startsWithCL (jsTrim name) "a0-svc-retained__".toList
    · simp only [hsw, Bool.not_false, if_true]
    · simp only [hsw, Bool.not_true, Bool.false_eq_true, if_false]
      by_cases hlen : (jsSplitUU (jsTrim name)).length < 4
      · rw [if_pos hlen]
      · rw [if_neg hlen, h]
  · intro name h
    unfold parseRetainedContainerName
    rcases hsw : startsWithCL (jsTrim name) "a0-svc-retained__".toList
    · simp only [hsw, Bool.not_false, if_true]
    · simp only [hsw, Bool.not_true, Bool.false_eq_true, if_false]
      by_cases hlen : (jsSplitUU (jsTrim name)).length < 4
      · rw [if_pos hlen]
      · rw [if_neg hlen]
        rcases hts : compactTimestampToIso ((jsSplitUU (jsTrim name)).getD 2 []) with _ | iso
        · rfl
        · rw [h]
          simp

/-- C9 (witness): the amended round trip applied to the default repository,
the tag `v1.2.3` and a concrete timestamp. -/
theorem C9_roundTrip_witness :
    matchesSafeTagPattern "v1.2.3".toList = true ∧
    "v1.2.3".toList.getLast? ≠ some '-' ∧
    cleanUU (repoSlug "agent0ai/agent-zero".toList) = true ∧
    validUtcDate ⟨2025, 1, 2, 3, 4, 5⟩ ∧
    parseRetainedContainerName (makeRetainedContainerName
        "agent0ai/agent-zero".toList "v1.2.3".toList ⟨2025, 1, 2, 3, 4, 5⟩) =
      some ⟨"v1.2.3".toList, isoUtcSeconds ⟨2025, 1, 2, 3, 4, 5⟩⟩ :=
  ⟨by decide, by decide, by decide, by decide,
    C9_retained_name_roundTrip.1 "agent0ai/agent-zero".toList "v1.2.3".toList
      ⟨2025, 1, 2, 3, 4, 5⟩ (by decide) (by decide) (by decide) (by decide)⟩


lemma exceptOk_iff {ε α : Type} (e : Except ε α) :
    exceptOk e = true ↔ ∃ a, e = .ok a := by
  rcases e with e | a <;> simp [exceptOk]

lemma beginOperation_running (op : Operation) (h : op.status = .running)
    (opId : ℕ) (ty : OpType) (target : Option (List Char)) :
    beginOperation (some op) opId ty target = .error .OP_IN_PROGRESS := by
  simp [beginOperation, requireNoRunningOperation, h]

lemma requireNoRunningOperation_ok (cur : Option Operation)
    (h : isRunningOp cur = false) : requireNoRunningOperation cur = .ok () := by
  rcases cur with _ | op
  · rfl
  · simp only [isRunningOp, decide_eq_false_iff_not] at h
    simp [requireNoRunningOperation, h]

/-- C1: while an operation is running, every operation-starting call whose
argument validation passes fails fast with `OP_IN_PROGRESS` and leaves the
current operation record untouched; across any sequence of
operation-starting calls at most one operation is ever running. -/
theorem C1_single_flight_invariant :
    (∀ (cur : Option Operation) (opId : ℕ) (c : Call) (op : Operation),
      cur = some op → op.status = .running → callValid c = true →
      dispatchCall cur opId c = (cur, .error .OP_IN_PROGRESS)) ∧
    (∀ (cur : Option Operation) (nextId : ℕ) (calls : List Call),
      runningOpCount (applyCalls cur nextId calls) ≤ 1) := by
  constructor
  · intro cur opId c op hcur hrun hvalid
    subst hcur
    have hbegin := beginOperation_running op hrun opId
    cases c with
    | install tag =>
      simp only [callValid] at hvalid
      obtain ⟨t, ht⟩ := (exceptOk_iff _).mp hvalid
      simp [dispatchCall, ht, hbegin]
    | startActive => simp [dispatchCall, hbegin]
    | stopActive => simp [dispatchCall, hbegin]
    | deleteInstance cid =>
      simp only [callValid] at hvalid
      obtain ⟨t, ht⟩ := (exceptOk_iff _).mp hvalid
      simp [dispatchCall, ht, hbegin]
    | update ack =>
      simp only [callValid] at hvalid
      obtain ⟨t, ht⟩ := (exceptOk_iff _).mp hvalid
      simp [dispatchCall, ht, hbegin]
    | activateRetained cid ack =>
      simp only [callValid, Bool.and_eq_true] at hvalid
      obtain ⟨t1, ht1⟩ := (exceptOk_iff _).mp hvalid.1
      obtain ⟨t2, ht2⟩ := (exceptOk_iff _).mp hvalid.2
      simp [dispatchCall, ht1, ht2, hbegin]
    | activate tag ack =>
      simp only [callValid, Bool.and_eq_true] at hvalid
      obtain ⟨t1, ht1⟩ := (exceptOk_iff _).mp hvalid.1
      obtain ⟨t2, ht2⟩ := (exceptOk_iff _).mp hvalid.2
      simp [dispatchCall, ht1, ht2, hbegin]
  · intro cur nextId calls
    have : ∀ s : Option Operation, runningOpCount s ≤ 1 := by
      intro s
      unfold runningOpCount
      split <;> omega
    exact this _

/-- C1 (witness): a concrete running install operation makes a concrete
`stopActive` call fail with `OP_IN_PROGRESS`. -/
theorem C1_single_flight_witness :
    (some (freshOperation 0 .install (some "testing".toList)) =
        some (freshOperation 0 .install (some "testing".toList))) ∧
    (freshOperation 0 .install (some "testing".toList)).status = .running ∧
    callValid .stopActive = true ∧
    dispatchCall (some (freshOperation 0 .install (some "testing".toList))) 1 .stopActive =
      (some (freshOperation 0 .install (some "testing".toList)), .error .OP_IN_PROGRESS) :=
  ⟨rfl, rfl, rfl,
    C1_single_flight_invariant.1 _ 1 .stopActive (freshOperation 0 .install (some "testing".toList))
      rfl rfl rfl⟩

/-- C10: with no operation running, a finite numeric keepCount is clamped to
`max 0 (min 20 ⌊n⌋)`, persisted and returned; a non-numeric input rejects
with `INVALID_RETENTION_POLICY` and the store is unchanged. -/
theorem C10_keepCount_clamping :
    (∀ (cur : Option Operation) (st : StoreState) (q : ℚ), isRunningOp cur = false →
      setRetentionPolicy cur st (some q) =
        ({ st with retentionPolicy := some ⟨max 0 (min 20 ⌊q⌋)⟩ },
          .ok (max 0 (min 20 ⌊q⌋)))) ∧
    (∀ (cur : Option Operation) (st : StoreState), isRunningOp cur = false →
      setRetentionPolicy cur st none = (st, .error .INVALID_RETENTION_POLICY)) := by
  constructor
  · intro cur st q h
    have hreq := requireNoRunningOperation_ok cur h
    have hidem : clampKeepCount (some ((max 0 (min 20 ⌊q⌋) : ℤ) : ℚ)) =
        max 0 (min 20 ⌊q⌋) := by
      simp only [clampKeepCount, Int.floor_intCast]
      omega
    simp only [setRetentionPolicy, hreq, assertKeepCount, writeRetentionPolicy, hidem]
  · intro cur st h
    have hreq := requireNoRunningOperation_ok cur h
    simp [setRetentionPolicy, hreq, assertKeepCount]

/-- C10 (witness): keepCount 25 is clamped to 20 and persisted; a
non-numeric keepCount rejects without writing. -/
theorem C10_keepCount_witness :
    isRunningOp none = false ∧
    setRetentionPolicy none emptyStore (some (25 : ℚ)) =
      ({ emptyStore with retentionPolicy := some ⟨20⟩ }, .ok 20) ∧
    setRetentionPolicy none emptyStore none =
      (emptyStore, .error .INVALID_RETENTION_POLICY) := by
  refine ⟨rfl, ?_, C10_keepCount_clamping.2 none emptyStore rfl⟩
  have h := C10_keepCount_clamping.1 none emptyStore 25 rfl
  rw [h]
  norm_num

lemma normalizePort_range (v : JsNum) (fb : ℤ) (hfb : 1 ≤ fb ∧ fb ≤ 65535) :
    1 ≤ normalizePort v fb ∧ normalizePort v fb ≤ 65535 := by
  rcases v with _ | q
  · exact hfb
  · simp only [normalizePort]
    split
    · exact hfb
    · omega

/-- C7 (counterexample): an input with the out-of-range ui port 0 does not
reject — the invalid value is silently replaced by the default 8880 and the
preferences are written. -/
theorem C7_port_preferences_counterexample :
    (¬ (1 ≤ (0 : ℤ) ∧ (0 : ℤ) ≤ 65535)) ∧
    setPortPreferences none emptyStore (some 0) (some 22) =
      ({ emptyStore with portPreferences := some ⟨8880, 22⟩ }, .ok ⟨8880, 22⟩) := by
  constructor
  · decide
  · have : normalizePort (some 0) 8880 = 8880 := by
      simp [normalizePort]
    have h22 : normalizePort (some 22) 55022 = 22 := by
      simp [normalizePort]
    simp [setPortPreferences, requireNoRunningOperation, writePortPreferences, this, h22]

/-- C7 (amended): invalid or missing port values are replaced by the
defaults 8880/55022; the normalized ports are always in range 1–65535; the
call rejects with `INVALID_PORT_PREFERENCES` exactly when the two normalized
ports coincide, and a rejection writes nothing to the store. -/
theorem C7_port_preferences (cur : Option Operation) (st : StoreState) (ui ssh : JsNum)
    (h : isRunningOp cur = false) :
    (1 ≤ normalizePort ui 8880 ∧ normalizePort ui 8880 ≤ 65535 ∧
      1 ≤ normalizePort ssh 55022 ∧ normalizePort ssh 55022 ≤ 65535) ∧
    (normalizePort ui 8880 = normalizePort ssh 55022 →
      setPortPreferences cur st ui ssh = (st, .error .INVALID_PORT_PREFERENCES)) ∧
    (normalizePort ui 8880 ≠ normalizePort ssh 55022 →
      setPortPreferences cur st ui ssh =
        ({ st with portPreferences := some ⟨normalizePort ui 8880, normalizePort ssh 55022⟩ },
          .ok ⟨normalizePort ui 8880, normalizePort ssh 55022⟩)) := by
  have hreq := requireNoRunningOperation_ok cur h
  obtain ⟨h1, h2⟩ := normalizePort_range ui 8880 (by omega)
  obtain ⟨h3, h4⟩ := normalizePort_range ssh 55022 (by omega)
  refine ⟨⟨h1, h2, h3, h4⟩, ?_, ?_⟩
  · intro heq
    simp [setPortPreferences, hreq, writePortPreferences, heq]
  · intro hne
    simp [setPortPreferences, hreq, writePortPreferences, hne]

/-- C7 (witness): two distinct in-range ports are accepted and persisted. -/
theorem C7_port_preferences_witness :
    isRunningOp (none : Option Operation) = false ∧
    setPortPreferences none emptyStore (some 1234) (some 22) =
      ({ emptyStore with portPreferences := some ⟨1234, 22⟩ }, .ok ⟨1234, 22⟩) := by
  refine ⟨rfl, ?_⟩
  have h := (C7_port_preferences none emptyStore (some 1234) (some 22) rfl).2.2
  have h1234 : normalizePort (some 1234) 8880 = 1234 := by
    simp [normalizePort]
  have h22 : normalizePort (some 22) 55022 = 22 := by
    simp [normalizePort]
  rw [h1234, h22] at h
  exact h (by norm_num)


/-- C6: on a non-forced refresh a `not_yet_available` entry with
`recheckAfter` in the future is not probed, an `installable` entry checked
less than 24 hours ago is not probed; once `recheckAfter` has elapsed the
probe runs and writes back a fresh verdict timestamped `now`, negative
verdicts carrying `recheckAfter = now + 15 minutes`. -/
theorem C6_installability_cache_ttl :
    (∀ (nowMs r : ℤ) (e : CacheEntry) (probe : Except Unit DigestInfo),
      e.status = .not_yet_available → e.recheckAfter = some r → nowMs < r →
      refreshCacheEntryStep false nowMs (some e) probe = (some e, false)) ∧
    (∀ (nowMs t : ℤ) (e : CacheEntry) (probe : Except Unit DigestInfo),
      e.status = .installable → e.checkedAt = some t → nowMs - t < H24_MS →
      refreshCacheEntryStep false nowMs (some e) probe = (some e, false)) ∧
    (∀ (nowMs r : ℤ) (e : CacheEntry) (info : DigestInfo),
      e.status = .not_yet_available → e.recheckAfter = some r → r ≤ nowMs →
      refreshCacheEntryStep false nowMs (some e) (.ok info) =
        (some (if info.tagExists then
            { status := .installable, checkedAt := some nowMs,
              recheckAfter := none, digest := info.digest }
          else
            { status := .not_yet_available, checkedAt := some nowMs,
              recheckAfter := some (nowMs + M15_MS), digest := none }), true)) ∧
    (∀ (nowMs : ℤ) (existing : Option CacheEntry) (info : DigestInfo)
      (force : Bool), info.tagExists = false →
      cacheEntryFresh force nowMs existing = false →
      refreshCacheEntryStep force nowMs existing (.ok info) =
        (some { status := .not_yet_available, checkedAt := some nowMs,
                recheckAfter := some (nowMs + M15_MS), digest := none }, true)) := by
  refine ⟨?_, ?_, ?_, ?_⟩
  · intro nowMs r e probe hst hra hlt
    have hfresh : cacheEntryFresh false nowMs (some e) = true := by
      simp [cacheEntryFresh, hst, hra, hlt]
    simp [refreshCacheEntryStep, hfresh]
  · intro nowMs t e probe hst hca hlt
    have hfresh : cacheEntryFresh false nowMs (some e) = true := by
      simp [cacheEntryFresh, hst, hca, hlt]
    simp [refreshCacheEntryStep, hfresh]
  · intro nowMs r e info hst hra hle
    have hfresh : cacheEntryFresh false nowMs (some e) = false := by
      simp [cacheEntryFresh, hst, hra]
      omega
    by_cases hi : info.tagExists
    · simp [refreshCacheEntryStep, hfresh, hi]
    · simp [refreshCacheEntryStep, hfresh, hi]
  · intro nowMs existing info force hi hfresh
    simp [refreshCacheEntryStep, hfresh, hi]

/-- C6 (witness): a concrete stale-vs-fresh pair of cache refreshes. -/
theorem C6_installability_cache_witness :
    (⟨InstStatus.not_yet_available, some 0, some 100, none⟩ : CacheEntry).status =
        .not_yet_available ∧
    (⟨InstStatus.not_yet_available, some 0, some 100, none⟩ : CacheEntry).recheckAfter =
        some 100 ∧
    (50 : ℤ) < 100 ∧ (100 : ℤ) ≤ 200 ∧
    refreshCacheEntryStep false 50 (some ⟨.not_yet_available, some 0, some 100, none⟩)
        (.ok ⟨true, none⟩) =
      (some ⟨.not_yet_available, some 0, some 100, none⟩, false) ∧
    refreshCacheEntryStep false 200 (some ⟨.not_yet_available, some 0, some 100, none⟩)
        (.ok ⟨false, none⟩) =
      (some ⟨.not_yet_available, some 200, some (200 + M15_MS), none⟩, true) := by
  refine ⟨rfl, rfl, by norm_num, by norm_num, ?_, ?_⟩
  · exact C6_installability_cache_ttl.1 50 100 _ _ rfl rfl (by norm_num)
  · have h := C6_installability_cache_ttl.2.2.1 200 100 ⟨.not_yet_available, some 0, some 100, none⟩
      ⟨false, none⟩ rfl rfl (by norm_num)
    simpa using h


/-- C8: the pagination loop is a total function (well-founded on the page
budget) that errors with `REGISTRY_PAGINATION_ERROR` once more than 2000
pages have been followed or when a next link equals the URL just fetched,
finishes with the de-duplicated sorted tags on the last page, and otherwise
advances to the next link with the page counter incremented. -/
theorem C8_pagination_termination :
    (∀ (fetch : List Char → PageOutcome) (url : List Char) (page : ℕ)
      (acc : List (List Char)), 2000 < page →
      listTagsGo fetch url page acc = .error .REGISTRY_PAGINATION_ERROR) ∧
    (∀ (fetch : List Char → PageOutcome) (url : List Char) (page : ℕ)
      (acc : List (List Char)) (p : TagPage), page ≤ 2000 →
      fetch url = .page p → p.nextLink = some url →
      listTagsGo fetch url page acc = .error .REGISTRY_PAGINATION_ERROR) ∧
    (∀ (fetch : List Char → PageOutcome) (url : List Char) (page : ℕ)
      (acc : List (List Char)) (p : TagPage), page ≤ 2000 →
      fetch url = .page p → p.nextLink = none →
      listTagsGo fetch url page acc = .ok (dedupSortTags (acc ++ p.tags))) ∧
    (∀ (fetch : List Char → PageOutcome) (url : List Char) (page : ℕ)
      (acc : List (List Char)) (p : TagPage) (l : List Char), page ≤ 2000 →
      fetch url = .page p → p.nextLink = some l → l ≠ url →
      listTagsGo fetch url page acc = listTagsGo fetch l (page + 1) (acc ++ p.tags)) := by
  refine ⟨?_, ?_, ?_, ?_⟩
  · intro fetch url page acc h
    rw [listTagsGo]
    simp [h]
  · intro fetch url page acc p hpage hf hn
    rw [listTagsGo]
    simp only [show ¬ 2000 < page by omega, if_false, hf, hn]
    simp
  · intro fetch url page acc p hpage hf hn
    rw [listTagsGo]
    simp only [show ¬ 2000 < page by omega, if_false, hf, hn]
  · intro fetch url page acc p l hpage hf hn hne
    rw [listTagsGo]
    simp only [show ¬ 2000 < page by omega, if_false, hf, hn, hne, if_false]

/-- C8 (witness): a registry whose next link always points at the fetched
URL itself is aborted on the first page. -/
theorem C8_pagination_witness :
    ((0 : ℕ) ≤ 2000) ∧
    ((fun _ : List Char => PageOutcome.page ⟨["a".toList], some "u".toList⟩) "u".toList =
      .page ⟨["a".toList], some "u".toList⟩) ∧
    (TagPage.mk ["a".toList] (some "u".toList)).nextLink = some "u".toList ∧
    listTags (fun _ => .page ⟨["a".toList], some "u".toList⟩) "u".toList =
      .error .REGISTRY_PAGINATION_ERROR :=
  ⟨by decide, rfl, rfl,
    C8_pagination_termination.2.1 (fun _ => .page ⟨["a".toList], some "u".toList⟩)
      "u".toList 0 [] ⟨["a".toList], some "u".toList⟩ (by decide) rfl rfl⟩


section SortLemmas

variable {α : Type} (le : α → α → Bool)

lemma mem_insertByLe (x a : α) (l : List α) :
    a ∈ insertByLe le x l ↔ a = x ∨ a ∈ l := by
  induction l with
  | nil => simp [insertByLe]
  | cons y rest ih =>
    simp only [insertByLe]
    by_cases h : le x y
    · simp [h, List.mem_cons]
    · simp [h, List.mem_cons, ih]
      tauto

lemma insertByLe_perm (x : α) (l : List α) :
    (insertByLe le x l).Perm (x :: l) := by
  induction l with
  | nil => simp [insertByLe]
  | cons y rest ih =>
    simp only [insertByLe]
    by_cases h : le x y
    · simp [h]
    · simp only [h, if_false]
      exact (ih.cons y).trans (List.Perm.swap x y rest)

lemma sortByLe_perm (l : List α) : (sortByLe le l).Perm l := by
  induction l with
  | nil => simp [sortByLe]
  | cons x rest ih =>
    simp only [sortByLe]
    exact (insertByLe_perm le x (sortByLe le rest)).trans (ih.cons x)

lemma pairwise_insertByLe (P : α → Prop)
    (htot : ∀ a b, P a → P b → le a b = true ∨ le b a = true)
    (htrans : ∀ a b c, P a → P b → P c → le a b = true → le b c = true → le a c = true)
    (x : α) (hx : P x) (l : List α) (hl : ∀ a ∈ l, P a)
    (hpw : List.Pairwise (fun a b => le a b = true) l) :
    List.Pairwise (fun a b => le a b = true) (insertByLe le x l) := by
  induction l with
  | nil => simp [insertByLe]
  | cons y rest ih =>
    have hy : P y := hl y (by simp)
    have hrest : ∀ a ∈ rest, P a := fun a ha => hl a (List.mem_cons_of_mem y ha)
    rcases List.pairwise_cons.mp hpw with ⟨hyrest, hpwrest⟩
    simp only [insertByLe]
    by_cases h : le x y
    · rw [if_pos h]
      refine List.pairwise_cons.mpr ⟨?_, hpw⟩
      intro z hz
      rcases List.mem_cons.mp hz with rfl | hz2
      · exact h
      · exact htrans x y z hx hy (hrest z hz2) h (hyrest z hz2)
    · have hyx : le y x = true := by
        rcases htot x y hx hy with h1 | h1
        · exact absurd h1 h
        · exact h1
      rw [if_neg h]
      refine List.pairwise_cons.mpr ⟨?_, ih hrest hpwrest⟩
      intro z hz
      rcases (mem_insertByLe le x z rest).mp hz with rfl | hz2
      · exact hyx
      · exact hyrest z hz2

lemma sortByLe_pairwise (P : α → Prop)
    (htot : ∀ a b, P a → P b → le a b = true ∨ le b a = true)
    (htrans : ∀ a b c, P a → P b → P c → le a b = true → le b c = true → le a c = true)
    (l : List α) (hl : ∀ a ∈ l, P a) :
    List.Pairwise (fun a b => le a b = true) (sortByLe le l) := by
  induction l with
  | nil => simp [sortByLe]
  | cons x rest ih =>
    simp only [sortByLe]
    have hrest : ∀ a ∈ rest, P a := fun a ha => hl a (List.mem_cons_of_mem x ha)
    refine pairwise_insertByLe le P htot htrans x (hl x (by simp)) (sortByLe le rest)
      (fun a ha => hrest a ((sortByLe_perm le rest).mem_iff.mp ha)) (ih hrest)

end SortLemmas

lemma retainedOf_filter (p : List Char → Bool) (containers : List ContainerInfo) :
    retainedOf (containers.filter (fun c => p c.containerId)) =
      (retainedOf containers).filter (fun e => p e.1) := by
  induction containers with
  | nil => rfl
  | cons c rest ih =>
    simp only [retainedOf, List.filter_cons] at ih ⊢
    by_cases hp : p c.containerId
    · simp only [hp, if_true, List.filterMap_cons]
      rcases hparse : parseRetainedContainerName c.containerName with _ | pr
      · simp only [Option.map_none']
        exact ih
      · simp only [Option.map_some', List.filter_cons, hp, if_true]
        rw [ih]
    · simp only [hp, if_false, List.filterMap_cons]
      rcases hparse : parseRetainedContainerName c.containerName with _ | pr
      · simp only [Option.map_none']
        exact ih
      · simp only [Option.map_some', List.filter_cons, hp, if_false]
        exact ih

lemma retainedOf_fst_sublist (containers : List ContainerInfo) :
    ((retainedOf containers).map Prod.fst).Sublist
      (containers.map ContainerInfo.containerId) := by
  induction containers with
  | nil => simp [retainedOf]
  | cons c rest ih =>
    simp only [retainedOf, List.filterMap_cons, List.map_cons] at ih ⊢
    rcases hparse : parseRetainedContainerName c.containerName with _ | pr
    · simp only [Option.map_none']
      exact List.sublist_cons_of_sublist _ ih
    · simp only [Option.map_some', List.map_cons]
      exact List.Sublist.cons₂ _ ih

lemma filterMap_delete_all_ok (deleteRes : List Char → Except ErrCode Unit)
    (hsucc : ∀ id, deleteRes id = .ok ()) (l : List RetainedEntry)
    (hne : ∀ e ∈ l, e.1 ≠ []) :
    (l.filterMap (fun r =>
      if r.1 = [] then none
      else
        match deleteRes r.1 with
        | .ok _ => some r.1
        | .error _ => none)) = l.map Prod.fst := by
  induction l with
  | nil => rfl
  | cons e rest ih =>
    simp only [List.filterMap_cons, hne e (by simp), if_false, hsucc e.1]
    rw [ih (fun a ha => hne a (List.mem_cons_of_mem e ha))]
    rfl

lemma filterMap_delete_sublist (deleteRes : List Char → Except ErrCode Unit)
    (l : List RetainedEntry) :
    (l.filterMap (fun r =>
      if r.1 = [] then none
      else
        match deleteRes r.1 with
        | .ok _ => some r.1
        | .error _ => none)).Sublist (l.map Prod.fst) := by
  induction l with
  | nil => simp
  | cons e rest ih =>
    simp only [List.filterMap_cons, List.map_cons]
    by_cases hz : e.1 = []
    · simp only [hz, if_true]
      exact List.sublist_cons_of_sublist _ ih
    · simp only [hz, if_false]
      rcases deleteRes e.1 with _ | _
      · exact List.sublist_cons_of_sublist _ ih
      · exact List.Sublist.cons₂ _ ih

lemma retainedCount_after_enforce (containers : List ContainerInfo)
    (policy : Option RetentionPolicy) (deleteRes : List Char → Except ErrCode Unit)
    (hnodup : (containers.map ContainerInfo.containerId).Nodup)
    (hne : ∀ e ∈ retainedOf containers, e.1 ≠ [])
    (hsucc : ∀ id, deleteRes id = .ok ()) :
    (retainedOf (remainingContainers containers policy deleteRes)).length =
      min (retainedOf containers).length (effectiveRetentionCount policy).toNat := by
  set k := (effectiveRetentionCount policy).toNat with hk
  have hperm : (sortedRetained containers).Perm (retainedOf containers) :=
    sortByLe_perm _ _
  have hneSR : ∀ e ∈ sortedRetained containers, e.1 ≠ [] :=
    fun e he => hne e (hperm.mem_iff.mp he)
  set SR := sortedRetained containers with hSR
  set D := (SR.drop k).map Prod.fst with hD
  have hdel : enforceRetentionDeleted containers policy deleteRes = D := by
    unfold enforceRetentionDeleted
    rw [← hk]
    exact filterMap_delete_all_ok deleteRes hsucc _
      (fun e he => hneSR e (List.mem_of_mem_drop he))
  have hfst_nodupR : ((retainedOf containers).map Prod.fst).Nodup :=
    (retainedOf_fst_sublist containers).nodup hnodup
  have hfst_nodupSR : (SR.map Prod.fst).Nodup :=
    ((hperm.map Prod.fst).nodup_iff).mpr hfst_nodupR
  have hrem : retainedOf (remainingContainers containers policy deleteRes) =
      (retainedOf containers).filter
        (fun e => !(enforceRetentionDeleted containers policy deleteRes).contains e.1) := by
    unfold remainingContainers
    exact retainedOf_filter
      (fun id => !(enforceRetentionDeleted containers policy deleteRes).contains id)
      containers
  rw [hrem]
  have hfilter_perm :
      ((retainedOf containers).filter
        (fun e => !(enforceRetentionDeleted containers policy deleteRes).contains e.1)).length =
      ((SR.filter
        (fun e => !(enforceRetentionDeleted containers policy deleteRes).contains e.1))).length :=
    ((hperm.filter _).length_eq).symm
  rw [hfilter_perm, hdel]
  have hsplit : SR = SR.take k ++ SR.drop k := (List.take_append_drop k SR).symm
  have hnodup_split : ((SR.take k).map Prod.fst ++ (SR.drop k).map Prod.fst).Nodup := by
    rw [← List.map_append, ← hsplit]; exact hfst_nodupSR
  have hdisj := (List.nodup_append.mp hnodup_split).2.2
  have htake : (SR.take k).filter (fun e => !D.contains e.1) = SR.take k := by
    refine List.filter_eq_self.mpr (fun e he => ?_)
    simp only [Bool.not_eq_true', ← Bool.not_eq_true]
    intro hcon
    rw [List.elem_iff] at hcon
    have he1 : e.1 ∈ (SR.take k).map Prod.fst := List.mem_map_of_mem _ he
    rw [hD] at hcon
    exact hdisj he1 hcon
  have hdrop : (SR.drop k).filter (fun e => !D.contains e.1) = [] := by
    rw [List.filter_eq_nil_iff]
    intro e he
    simp only [Bool.not_eq_true', Bool.not_eq_false]
    rw [List.elem_iff, hD]
    exact List.mem_map_of_mem Prod.fst he
  calc (SR.filter (fun e => !D.contains e.1)).length
      = ((SR.take k ++ SR.drop k).filter (fun e => !D.contains e.1)).length := by
        rw [← hsplit]
    _ = ((SR.take k).filter (fun e => !D.contains e.1) ++
          (SR.drop k).filter (fun e => !D.contains e.1)).length := by
        rw [List.filter_append]
    _ = (SR.take k).length := by rw [htake, hdrop, List.append_nil]
    _ = min (retainedOf containers).length k := by
        rw [List.length_take, hperm.length_eq]
        omega

lemma retainedCmpLe_total (a b : RetainedEntry)
    (ha : (isoToMs a.2).isSome = true) (hb : (isoToMs b.2).isSome = true) :
    retainedCmpLe a b = true ∨ retainedCmpLe b a = true := by
  obtain ⟨am, ham⟩ := Option.isSome_iff_exists.mp ha
  obtain ⟨bm, hbm⟩ := Option.isSome_iff_exists.mp hb
  simp only [retainedCmpLe, ham, hbm, decide_eq_true_eq]
  omega

lemma retainedCmpLe_trans (a b c : RetainedEntry)
    (ha : (isoToMs a.2).isSome = true) (hb : (isoToMs b.2).isSome = true)
    (hc : (isoToMs c.2).isSome = true)
    (h1 : retainedCmpLe a b = true) (h2 : retainedCmpLe b c = true) :
    retainedCmpLe a c = true := by
  obtain ⟨am, ham⟩ := Option.isSome_iff_exists.mp ha
  obtain ⟨bm, hbm⟩ := Option.isSome_iff_exists.mp hb
  obtain ⟨cm, hcm⟩ := Option.isSome_iff_exists.mp hc
  simp only [retainedCmpLe, ham, hbm, hcm, decide_eq_true_eq] at h1 h2 ⊢
  omega

lemma sortedRetained_dominance (containers : List ContainerInfo) (k : ℕ)
    (hall : ∀ e ∈ retainedOf containers, (isoToMs e.2).isSome = true) :
    ∀ a ∈ (sortedRetained containers).take k,
      ∀ b ∈ (sortedRetained containers).drop k, retainedCmpLe a b = true := by
  have hperm : (sortedRetained containers).Perm (retainedOf containers) :=
    sortByLe_perm _ _
  have hallSR : ∀ e ∈ sortedRetained containers, (isoToMs e.2).isSome = true :=
    fun e he => hall e (hperm.mem_iff.mp he)
  have hpw : List.Pairwise (fun a b => retainedCmpLe a b = true)
      (sortedRetained containers) := by
    refine sortByLe_pairwise retainedCmpLe (fun e => (isoToMs e.2).isSome = true)
      (fun a b hpa hpb => retainedCmpLe_total a b hpa hpb)
      (fun a b c hpa hpb hpc => retainedCmpLe_trans a b c hpa hpb hpc)
      (retainedOf containers) hall
    -- sortedRetained is definitionally sortByLe of retainedOf
  have hsplit : sortedRetained containers =
      (sortedRetained containers).take k ++ (sortedRetained containers).drop k :=
    (List.take_append_drop k _).symm
  rw [hsplit] at hpw
  exact (List.pairwise_append.mp hpw).2.2

/-- C3: the retention keep-count is floored at 1 (`max 1 kc` for policies in
0–20); after enforcement with all deletions succeeding, the number of
retained instances is `min (count before) (max 1 keepCount)`; the kept
entries dominate every deleted entry in the descending timestamp order; and
whatever the deletion oracle does, only entries past the first `keep`
sorted ones are ever deleted — the enforcement itself cannot fail. -/
theorem C3_retention_floor :
    (∀ kc : ℤ, 0 ≤ kc → kc ≤ 20 →
      effectiveRetentionCount (some ⟨kc⟩) = max 1 kc) ∧
    (∀ (containers : List ContainerInfo) (policy : Option RetentionPolicy)
      (deleteRes : List Char → Except ErrCode Unit),
      (containers.map ContainerInfo.containerId).Nodup →
      (∀ e ∈ retainedOf containers, e.1 ≠ []) →
      (∀ id, deleteRes id = .ok ()) →
      (retainedOf (remainingContainers containers policy deleteRes)).length =
        min (retainedOf containers).length (effectiveRetentionCount policy).toNat) ∧
    (∀ (containers : List ContainerInfo) (k : ℕ),
      (∀ e ∈ retainedOf containers, (isoToMs e.2).isSome = true) →
      ∀ a ∈ (sortedRetained containers).take k,
        ∀ b ∈ (sortedRetained containers).drop k, retainedCmpLe a b = true) ∧
    (∀ (containers : List ContainerInfo) (policy : Option RetentionPolicy)
      (deleteRes : List Char → Except ErrCode Unit),
      (enforceRetentionDeleted containers policy deleteRes).Sublist
        (((sortedRetained containers).drop
          (effectiveRetentionCount policy).toNat).map Prod.fst)) := by
  refine ⟨?_, ?_, ?_, ?_⟩
  · intro kc h0 h20
    have hval : effectiveRetentionCount (some ⟨kc⟩) = max 1 (min 20 kc) := rfl
    rw [hval]
    omega
  · intro containers policy deleteRes hnodup hne hsucc
    exact retainedCount_after_enforce containers policy deleteRes hnodup hne hsucc
  · intro containers k hall
    exact sortedRetained_dominance containers k hall
  · intro containers policy deleteRes
    exact filterMap_delete_sublist deleteRes _

/-- C3 (witness): two retained containers and keepCount 1 leave exactly one
retained container. -/
theorem C3_retention_floor_witness :
    (([⟨"aa".toList, "a0-svc-active__repo".toList, "v1".toList, "running".toList⟩,
       ⟨"bb".toList, "a0-svc-retained__repo__20250102T000000Z__v1".toList,
         "v1".toList, "exited".toList⟩,
       ⟨"cc".toList, "a0-svc-retained__repo__20250101T000000Z__v0".toList,
         "v0".toList, "exited".toList⟩] : List ContainerInfo).map
        ContainerInfo.containerId).Nodup ∧
    (∀ e ∈ retainedOf
      [⟨"aa".toList, "a0-svc-active__repo".toList, "v1".toList, "running".toList⟩,
       ⟨"bb".toList, "a0-svc-retained__repo__20250102T000000Z__v1".toList,
         "v1".toList, "exited".toList⟩,
       ⟨"cc".toList, "a0-svc-retained__repo__20250101T000000Z__v0".toList,
         "v0".toList, "exited".toList⟩], e.1 ≠ []) ∧
    (retainedOf (remainingContainers
      [⟨"aa".toList, "a0-svc-active__repo".toList, "v1".toList, "running".toList⟩,
       ⟨"bb".toList, "a0-svc-retained__repo__20250102T000000Z__v1".toList,
         "v1".toList, "exited".toList⟩,
       ⟨"cc".toList, "a0-svc-retained__repo__20250101T000000Z__v0".toList,
         "v0".toList, "exited".toList⟩]
      (some ⟨1⟩) (fun _ => .ok ()))).length = 1 := by
  refine ⟨by decide, by decide, ?_⟩
  have h := C3_retention_floor.2.1
    [⟨"aa".toList, "a0-svc-active__repo".toList, "v1".toList, "running".toList⟩,
     ⟨"bb".toList, "a0-svc-retained__repo__20250102T000000Z__v1".toList,
       "v1".toList, "exited".toList⟩,
     ⟨"cc".toList, "a0-svc-retained__repo__20250101T000000Z__v0".toList,
       "v0".toList, "exited".toList⟩]
    (some ⟨1⟩) (fun _ => .ok ()) (by decide) (by decide) (fun id => rfl)
  rw [h]
  decide


lemma pullStepLayers_lastDl (s : PullState) (e : PullEvent) :
    (pullStepLayers s e).lastDlPercent = s.lastDlPercent ∧
      (pullStepLayers s e).lastXPercent = s.lastXPercent := by
  unfold pullStepLayers
  rcases layerIdOf e.rawId with _ | id <;> simp only [] <;> repeat' split
  all_goals exact ⟨rfl, rfl⟩

lemma pullStep_dl_spec (s : PullState) (e : PullEvent) :
    ((pullStep s e).2.1 = none ∧ (pullStep s e).1.lastDlPercent = s.lastDlPercent) ∨
    (∃ v, (pullStep s e).2.1 = some v ∧ (pullStep s e).1.lastDlPercent = v ∧
      s.lastDlPercent ≤ v) := by
  obtain ⟨hdl, hx⟩ := pullStepLayers_lastDl s e
  unfold pullStep
  rcases hp : computePercent true (pullStepLayers s e) with _ | c <;>
    rcases hq : computePercent false (pullStepLayers s e) with _ | cx <;>
      simp only [hp, hq]
  · exact Or.inl ⟨trivial, hdl⟩
  · exact Or.inl ⟨trivial, by simpa using hdl⟩
  · exact Or.inr ⟨_, rfl, rfl, by rw [← hdl]; exact le_max_left _ _⟩
  · exact Or.inr ⟨_, rfl, rfl, by rw [← hdl]; exact le_max_left _ _⟩

lemma pullStep_x_spec (s : PullState) (e : PullEvent) :
    ((pullStep s e).2.2 = none ∧ (pullStep s e).1.lastXPercent = s.lastXPercent) ∨
    (∃ v, (pullStep s e).2.2 = some v ∧ (pullStep s e).1.lastXPercent = v ∧
      s.lastXPercent ≤ v) := by
  obtain ⟨hdl, hx⟩ := pullStepLayers_lastDl s e
  unfold pullStep
  rcases hp : computePercent true (pullStepLayers s e) with _ | c <;>
    rcases hq : computePercent false (pullStepLayers s e) with _ | cx <;>
      simp only [hp, hq]
  · exact Or.inl ⟨trivial, hx⟩
  · exact Or.inr ⟨_, rfl, rfl, by rw [← hx]; exact le_max_left _ _⟩
  · exact Or.inl ⟨trivial, by simpa using hx⟩
  · exact Or.inr ⟨_, rfl, rfl, by rw [← hx]; exact le_max_left _ _⟩

lemma pullEmits_dl_chain (evs : List PullEvent) : ∀ s : PullState,
    List.Chain' (· ≤ ·) ((pullEmits s evs).filterMap Prod.fst) ∧
    (∀ v, ((pullEmits s evs).filterMap Prod.fst).head? = some v →
      s.lastDlPercent ≤ v) := by
  induction evs with
  | nil => intro s; simp [pullEmits]
  | cons e rest ih =>
    intro s
    obtain ⟨ihchain, ihhead⟩ := ih (pullStep s e).1
    rcases pullStep_dl_spec s e with ⟨hnone, hlast⟩ | ⟨v, hsome, hlast, hle⟩
    · simp only [pullEmits, List.filterMap_cons, hnone]
      refine ⟨ihchain, fun v hv => ?_⟩
      rw [← hlast]
      exact ihhead v hv
    · simp only [pullEmits, List.filterMap_cons, hsome]
      constructor
      · rw [List.chain'_cons']
        exact ⟨fun y hy => le_trans (hlast ▸ ihhead y hy) (le_refl _) |>.trans (le_refl _),
          ihchain⟩
      · intro w hw
        simp only [List.head?_cons, Option.some.injEq] at hw
        exact hw ▸ hle

lemma pullEmits_x_chain (evs : List PullEvent) : ∀ s : PullState,
    List.Chain' (· ≤ ·) ((pullEmits s evs).filterMap Prod.snd) ∧
    (∀ v, ((pullEmits s evs).filterMap Prod.snd).head? = some v →
      s.lastXPercent ≤ v) := by
  induction evs with
  | nil => intro s; simp [pullEmits]
  | cons e rest ih =>
    intro s
    obtain ⟨ihchain, ihhead⟩ := ih (pullStep s e).1
    rcases pullStep_x_spec s e with ⟨hnone, hlast⟩ | ⟨v, hsome, hlast, hle⟩
    · simp only [pullEmits, List.filterMap_cons, hnone]
      refine ⟨ihchain, fun v hv => ?_⟩
      rw [← hlast]
      exact ihhead v hv
    · simp only [pullEmits, List.filterMap_cons, hsome]
      constructor
      · rw [List.chain'_cons']
        exact ⟨fun y hy => hlast ▸ ihhead y hy, ihchain⟩
      · intro w hw
        simp only [List.head?_cons, Option.some.injEq] at hw
        exact hw ▸ hle

/-- C5: over any pull event stream, the emitted `downloadProgress` values
(ignoring nulls) form a non-decreasing sequence, and so do the emitted
`extractProgress` values — each reported percentage is
`max(previous reported, freshly computed aggregate)`. -/
theorem C5_progress_monotonicity (s0 : PullState) (events : List PullEvent) :
    List.Chain' (· ≤ ·) ((pullEmits s0 events).filterMap Prod.fst) ∧
    List.Chain' (· ≤ ·) ((pullEmits s0 events).filterMap Prod.snd) :=
  ⟨(pullEmits_dl_chain events s0).1, (pullEmits_x_chain events s0).1⟩


/-- C2 (code bug): when `createContainer` succeeds but starting the new
container fails — squarely inside the claimed window "after the active was
stopped and renamed, before the new active is fully created and started" —
`createdNew` was never assigned, so the compensation deletes nothing, the
orphaned new container keeps the active name, the rename-back conflicts and
is swallowed, and the system ends with the original instance stuck retained
and stopped.  In the create-failure and UI-wait-failure windows the
compensation restores the original instance exactly as claimed. -/
theorem C2_compensation_code_bug :
    -- create succeeds, starting the new container fails: `createdNew` was
    -- never assigned, so the catch deletes nothing, the rename-back hits a
    -- name conflict and is swallowed
    (activateSwitch "agent0ai/agent-zero".toList "v2".toList
        [⟨"aa".toList, "a0-svc-active__agent0ai-agent-zero".toList,
          "v1".toList, "running".toList⟩]
        ⟨true, .ok "ee".toList, .error .DOCKER_ERROR, true, true, true,
          ⟨2025, 1, 2, 3, 4, 5⟩⟩ =
      ([⟨"aa".toList,
          "a0-svc-retained__agent0ai-agent-zero__20250102T030405Z__v1".toList,
          "v1".toList, "exited".toList⟩,
        ⟨"ee".toList, "a0-svc-active__agent0ai-agent-zero".toList,
          "v2".toList, "created".toList⟩],
        some .DOCKER_ERROR)) ∧
    -- hence the orphaned new instance survives ...
    ((activateSwitch "agent0ai/agent-zero".toList "v2".toList
        [⟨"aa".toList, "a0-svc-active__agent0ai-agent-zero".toList,
          "v1".toList, "running".toList⟩]
        ⟨true, .ok "ee".toList, .error .DOCKER_ERROR, true, true, true,
          ⟨2025, 1, 2, 3, 4, 5⟩⟩).1.any
      (fun c => c.containerId = "ee".toList) = true) ∧
    -- ... and the original instance is not back as the running active one
    ((activateSwitch "agent0ai/agent-zero".toList "v2".toList
        [⟨"aa".toList, "a0-svc-active__agent0ai-agent-zero".toList,
          "v1".toList, "running".toList⟩]
        ⟨true, .ok "ee".toList, .error .DOCKER_ERROR, true, true, true,
          ⟨2025, 1, 2, 3, 4, 5⟩⟩).1.any
      (fun c => c.containerId = "aa".toList &&
        c.containerName = "a0-svc-active__agent0ai-agent-zero".toList &&
        c.state = "running".toList) = false) ∧
    -- in the other two failure windows the compensation works as claimed:
    -- UI-wait failure (new instance fully created and started) ...
    (activateSwitch "agent0ai/agent-zero".toList "v2".toList
        [⟨"aa".toList, "a0-svc-active__agent0ai-agent-zero".toList,
          "v1".toList, "running".toList⟩]
        ⟨true, .ok "ee".toList, .ok (), false, true, true,
          ⟨2025, 1, 2, 3, 4, 5⟩⟩ =
      ([⟨"aa".toList, "a0-svc-active__agent0ai-agent-zero".toList,
          "v1".toList, "running".toList⟩], some .UI_NOT_READY)) ∧
    -- ... and create failure
    (activateSwitch "agent0ai/agent-zero".toList "v2".toList
        [⟨"aa".toList, "a0-svc-active__agent0ai-agent-zero".toList,
          "v1".toList, "running".toList⟩]
        ⟨true, .error .CONFLICT, .ok (), true, true, true,
          ⟨2025, 1, 2, 3, 4, 5⟩⟩ =
      ([⟨"aa".toList, "a0-svc-active__agent0ai-agent-zero".toList,
          "v1".toList, "running".toList⟩], some .CONFLICT)) := by
  refine ⟨by decide, by decide, by decide, by decide, by decide⟩

end A0
